import Mathlib

/-!
# kvdb: bucket namespacing, transactional operations and the script exit protocol

A shallow embedding of the Go sources of `maolonglong/kvdb`
(`internal/core`, `internal/kv`, `internal/kv/badger`, `internal/http`).

Conventions of the embedding

* Go `[]byte` and Go `string` values that end up in store keys or values are
  lists of bytes (`Bytes`).
* `int64` values are `Int`s kept in the signed 64-bit range by `wrapInt64`.
* A Go function that may return an error, or panic, returns a `Res`.
* The store is a value of type `DB` (committed entries plus the log of the
  transaction calls made on it); a transaction is a value of type `Txn`.
-/

set_option autoImplicit false

namespace Kvdb

/-! ## Bytes -/

/-- Byte strings: Go `[]byte`, and Go `string` seen as its bytes. -/
abbrev Bytes := List UInt8

/-- The bytes of an ASCII string literal of the source. -/
def ascii (s : String) : Bytes := s.toList.map (fun c => c.toNat.toUInt8)

/-! ## `internal/core/bucket.go`: constants and the bucket -/

/-- Go: `const _bucketNameLen = 21`. -/
def _bucketNameLen : Nat := 21

/-- Go: `_markBucketOpts = ":opts"`. -/
def _markBucketOpts : Bytes := ascii ":opts"

/-- Go: `_markKeyValue = ":kv:"`. -/
def _markKeyValue : Bytes := ascii ":kv:"

/-- Go: `_markScripts = ":scripts:"`. -/
def _markScripts : Bytes := ascii ":scripts:"

/-- Go: `type BucketOptions struct`; the four key fields are plain strings, `DefaultTTL` is a
`time.Duration` (nanoseconds, `int64`). -/
structure BucketOptions where
  SecretKey : String := ""
  ReadKey : String := ""
  WriteKey : String := ""
  SigningKey : String := ""
  DefaultTTL : Int := 0
  deriving DecidableEq, Repr

/-- Go: `type Bucket struct { store; opts; name }`. The store is passed to the operations
explicitly. -/
structure Bucket where
  opts : BucketOptions
  name : Bytes
  deriving DecidableEq, Repr

/-- Go: `func (b *Bucket) udataKey(origin []byte, mark string) []byte`: a fresh (empty) pooled
buffer receives the name, the mark and the logical key. -/
def Bucket.udataKey (b : Bucket) (origin : Bytes) (mark : Bytes) : Bytes :=
  let buf : Bytes := []
  let buf := buf ++ b.name
  let buf := buf ++ mark
  let buf := buf ++ origin
  buf

/-- Go: `bytesconv.StringToBytes(b.name + _markBucketOpts)` in `storeOpts` and `loadOpts`. -/
def Bucket.optsKey (b : Bucket) : Bytes := b.name ++ _markBucketOpts

/-- A 21-byte bucket name, as the identifier generator issues them. -/
def sampleNameA : Bytes := ascii "V1StGXR8_Z5jdHi6B-myT"

/-- A second 21-byte bucket name. -/
def sampleNameB : Bytes := ascii "V1StGXR8_Z5jdHi6B-myU"


/-! ## Errors and call outcomes -/

/-- Errors of the storage engine (badger) that the repository distinguishes, and the rest. -/
inductive BadgerErr
  | ErrKeyNotFound
  | ErrTxnTooBig
  | ErrReadOnlyTxn
  | other (msg : String)
  deriving DecidableEq, Repr

/-- Go: `internal/kv/errors.go` (`ErrKeyNotFound`, `ErrTxnTooBig`, `ErrInvalidNum`), plus the
errors of the engine that `badger.go` hands on verbatim. -/
inductive Err
  | ErrKeyNotFound
  | ErrTxnTooBig
  | ErrInvalidNum
  | engine (e : BadgerErr)
  deriving DecidableEq, Repr

deriving instance DecidableEq for Except

/-- What a Go call with an `error` result does: returns `nil`, returns an error, or panics. -/
inductive Status
  | nil
  | err (e : Err)
  | panic (msg : String)
  deriving DecidableEq, Repr

/-! ## The storage engine behind `kv.Store`

The engine (badger) is an external library. It is modelled as the transactional key-value map
the repository relies on: committed entries, a transaction with its own pending writes that
reads through to the snapshot it was opened on, and calls that may fail as a fault oracle says.
-/

/-- A stored entry: the value and `ExpiresAt` (Unix seconds; `0` means no expiry). -/
structure Entry where
  Value : Bytes
  ExpiresAt : Nat
  deriving DecidableEq, Repr

/-- Committed entries: an association list without repeated keys. -/
abbrev Data := List (Bytes × Entry)

/-- Look a key up. -/
def Data.get (d : Data) (k : Bytes) : Option Entry :=
  match d with
  | [] => none
  | (k1, e) :: rest => if k1 = k then some e else Data.get rest k

/-- Remove a key. -/
def Data.del (d : Data) (k : Bytes) : Data :=
  d.filter (fun p => decide (p.1 ≠ k))

/-- Write a key, replacing an entry it had. -/
def Data.put (d : Data) (k : Bytes) (e : Entry) : Data :=
  (k, e) :: Data.del d k

/-- A pending write of a transaction: the key and the entry, `none` for a delete marker. -/
abbrev Write := Bytes × Option Entry

/-- Apply one write to the committed entries. -/
def Data.apply (d : Data) (w : Write) : Data :=
  match w.2 with
  | some e => Data.put d w.1 e
  | none => Data.del d w.1

/-- The calls the repository makes on a store's transactions. -/
inductive Event
  | NewTransaction (id : Nat) (update : Bool)
  | Commit (id : Nat)
  | Discard (id : Nat)
  deriving DecidableEq, Repr

/-- The store: its committed entries and the log of the transaction calls made on it
(most recent first). -/
structure DB where
  data : Data
  log : List Event
  deriving DecidableEq, Repr

/-- A transaction (`*badger.Txn`): the snapshot it reads, and its pending writes, most recent
first. -/
structure Txn where
  id : Nat
  update : Bool
  snapshot : Data
  pending : List Write
  deriving DecidableEq, Repr

/-- The environment of the engine: the clock (`time.Now()`, Unix nanoseconds, constant during a
call) and the fault oracle saying which engine calls fail, besides the failures that the model
computes itself (a missing key, a write in a read-only transaction). -/
structure Engine where
  now : Nat
  getFault : Txn → Bytes → Option BadgerErr
  setFault : Txn → Bytes → Entry → Option BadgerErr
  deleteFault : Txn → Bytes → Option BadgerErr
  commitFault : Txn → Option BadgerErr

/-- An engine on which no call fails by the oracle. -/
def Engine.NoFaults (E : Engine) : Prop :=
  (∀ t k, E.getFault t k = none) ∧ (∀ t k e, E.setFault t k e = none) ∧
  (∀ t k, E.deleteFault t k = none) ∧ (∀ t, E.commitFault t = none)

/-- Go: `time.Now().Unix()`. -/
def Engine.nowUnix (E : Engine) : Nat := E.now / 1000000000

/-- Engine: an entry with an expiry that has been reached is treated as absent. -/
def Entry.expired (E : Engine) (e : Entry) : Bool :=
  decide (e.ExpiresAt ≠ 0) && decide (e.ExpiresAt ≤ E.nowUnix)

/-- The write pending for a key in a transaction, if there is one. -/
def pendingGet (p : List Write) (k : Bytes) : Option (Option Entry) :=
  match p with
  | [] => none
  | (k1, w) :: rest => if k1 = k then some w else pendingGet rest k

/-- Engine `txn.Get(key)`: the pending write for the key if there is one, else the snapshot;
a deleted or expired entry is `ErrKeyNotFound`. -/
def Txn.Get (E : Engine) (txn : Txn) (key : Bytes) : Except BadgerErr Entry :=
  match E.getFault txn key with
  | some e => .error e
  | none =>
    match pendingGet txn.pending key with
    | some (some e) => if e.expired E then .error .ErrKeyNotFound else .ok e
    | some none => .error .ErrKeyNotFound
    | none =>
      match Data.get txn.snapshot key with
      | some e => if e.expired E then .error .ErrKeyNotFound else .ok e
      | none => .error .ErrKeyNotFound

/-- Engine `txn.SetEntry(ent)`. -/
def Txn.SetEntry (E : Engine) (txn : Txn) (key : Bytes) (ent : Entry) : Option BadgerErr × Txn :=
  if txn.update = false then (some .ErrReadOnlyTxn, txn)
  else
    match E.setFault txn key ent with
    | some e => (some e, txn)
    | none => (none, { txn with pending := (key, some ent) :: txn.pending })

/-- Engine `txn.Delete(key)`. -/
def Txn.Delete (E : Engine) (txn : Txn) (key : Bytes) : Option BadgerErr × Txn :=
  if txn.update = false then (some .ErrReadOnlyTxn, txn)
  else
    match E.deleteFault txn key with
    | some e => (some e, txn)
    | none => (none, { txn with pending := (key, none) :: txn.pending })

/-- The committed entries after the pending writes of a transaction, oldest write first. -/
def commitWrites (d : Data) (p : List Write) : Data :=
  p.foldr (fun w acc => Data.apply acc w) d

/-! ## `internal/kv/badger/badger.go` -/

/-- Go: `kv.SetOptions`. -/
structure SetOptions where
  TTL : Int
  deriving DecidableEq, Repr

/-- Go: `var ttl time.Duration; if opts != nil { ttl = opts.TTL }` in `Set` and `Incr`. -/
def ttlOf (opts : Option SetOptions) : Int :=
  match opts with
  | some o => o.TTL
  | none => 0

/-- An engine error as `badger.go` returns it when it does not translate it. -/
def ofBadger (e : Option BadgerErr) : Status :=
  match e with
  | none => .nil
  | some e => .err (.engine e)

/-- Go: `func (s *Store) NewTransaction(update bool) any`. -/
def Store.NewTransaction (db : DB) (update : Bool) : Txn × DB :=
  let id := db.log.length
  ({ id := id, update := update, snapshot := db.data, pending := [] },
   { db with log := .NewTransaction id update :: db.log })

/-- Go: `func (s *Store) Discard(_txn any)`. -/
def Store.Discard (db : DB) (txn : Txn) : DB :=
  { db with log := .Discard txn.id :: db.log }

/-- Go: `func (s *Store) Commit(_txn any) error`: on success the pending writes become
committed. -/
def Store.Commit (E : Engine) (db : DB) (txn : Txn) : Status × DB :=
  match E.commitFault txn with
  | some e => (.err (.engine e), { db with log := .Commit txn.id :: db.log })
  | none => (.nil, { data := commitWrites db.data txn.pending, log := .Commit txn.id :: db.log })

/-- Go: `func (s *Store) Get(ctx, _txn, key) ([]byte, error)`. -/
def Store.Get (E : Engine) (txn : Txn) (key : Bytes) : Except Err Bytes :=
  match txn.Get E key with
  | .error e => if e = .ErrKeyNotFound then .error .ErrKeyNotFound else .error (.engine e)
  | .ok item => .ok item.Value

/-- Go: `uint64(time.Now().Add(ttl).Unix())` in `setEntry`. -/
def expiresAt (E : Engine) (ttl : Int) : Nat :=
  (((E.now : Int) + ttl) / 1000000000 % 18446744073709551616).toNat

/-- Go: `func (s *Store) setEntry(txn, key, val, ttl) error`. -/
def Store.setEntry (E : Engine) (txn : Txn) (key val : Bytes) (ttl : Int) : Status × Txn :=
  let ent : Entry := { Value := val, ExpiresAt := 0 }
  let ent := if ttl > 0 then { ent with ExpiresAt := expiresAt E ttl } else ent
  let r := txn.SetEntry E key ent
  (ofBadger r.1, r.2)

/-- Go: `func (s *Store) Set(ctx, _txn, key, val, opts) error`. -/
def Store.Set (E : Engine) (txn : Txn) (key val : Bytes) (opts : Option SetOptions) :
    Status × Txn :=
  let ttl : Int := ttlOf opts
  Store.setEntry E txn key val ttl

/-- Go: `func (s *Store) Delete(ctx, _txn, key) error`. -/
def Store.Delete (E : Engine) (txn : Txn) (key : Bytes) : Status × Txn :=
  let r := txn.Delete E key
  (ofBadger r.1, r.2)

/-! ## `strconv` (Go standard library), base 10 and 64 bits -/

/-- Go: the `Err` field of `*strconv.NumError`. -/
inductive NumErr
  | ErrSyntax
  | ErrRange
  deriving DecidableEq, Repr

/-- Go: `int64` arithmetic wraps around. -/
def wrapInt64 (x : Int) : Int :=
  (x + 9223372036854775808) % 18446744073709551616 - 9223372036854775808

/-- Go: `maxVal` of `ParseUint` for 64 bits, `1<<64 - 1`. -/
def maxUint64 : Nat := 18446744073709551615

/-- Go: `cutoff` of `ParseUint` for base 10, `maxUint64/10 + 1`. -/
def parseUintCutoff : Nat := maxUint64 / 10 + 1

/-- Go: the loop of `strconv.ParseUint(s, 10, 64)` over the bytes of `s`, with `n` the number read
so far. -/
def parseUintLoop : Bytes → Nat → Nat × Option NumErr
  | [], n => (n, none)
  | c :: rest, n =>
    let lower : Nat := Nat.lor c.toNat 32
    if 48 ≤ c.toNat ∧ c.toNat ≤ 57 then
      let d : Nat := c.toNat - 48
      if d ≥ 10 then (0, some .ErrSyntax)
      else if n ≥ parseUintCutoff then (maxUint64, some .ErrRange)
      else
        let n := n * 10
        let n1 := (n + d) % 18446744073709551616
        if n1 < n ∨ n1 > maxUint64 then (maxUint64, some .ErrRange)
        else parseUintLoop rest n1
    else if 97 ≤ lower ∧ lower ≤ 122 then
      let d : Nat := lower - 97 + 10
      if d ≥ 10 then (0, some .ErrSyntax)
      else if n ≥ parseUintCutoff then (maxUint64, some .ErrRange)
      else
        let n := n * 10
        let n1 := (n + d) % 18446744073709551616
        if n1 < n ∨ n1 > maxUint64 then (maxUint64, some .ErrRange)
        else parseUintLoop rest n1
    else (0, some .ErrSyntax)

/-- Go: `strconv.ParseUint(s, 10, 64)`. -/
def ParseUint (s : Bytes) : Nat × Option NumErr :=
  if s = [] then (0, some .ErrSyntax) else parseUintLoop s 0

/-- Go: the second half of `strconv.ParseInt(s, 10, 64)`, from the result `r` of `ParseUint` on
the text after the sign on: a syntax error is returned, the range is checked, the sign is
applied. -/
def parseIntSigned (neg : Bool) (r : Nat × Option NumErr) : Int × Option NumErr :=
  let un := r.1
  if r.2 = some .ErrSyntax then (0, r.2)
  else
    let cutoff : Nat := 9223372036854775808
    if neg = false ∧ un ≥ cutoff then ((cutoff : Int) - 1, some .ErrRange)
    else if neg = true ∧ un > cutoff then (-(cutoff : Int), some .ErrRange)
    else
      let n : Int := wrapInt64 un
      let n := if neg then wrapInt64 (-n) else n
      (n, none)

/-- Go: `strconv.ParseInt(s, 10, 64)`: the value and the error (`none` for `nil`). The first
half picks off a leading sign. -/
def ParseInt (s : Bytes) : Int × Option NumErr :=
  match s with
  | [] => (0, some .ErrSyntax)
  | c :: rest =>
    let neg : Bool := decide (c ≠ 43) && decide (c = 45)
    let s1 : Bytes := if c = 43 then rest else if c = 45 then rest else s
    parseIntSigned neg (ParseUint s1)

/-- The decimal digits of `n`, most significant first, at most `fuel` of them. -/
def decDigits : Nat → Nat → List Nat
  | 0, _ => []
  | fuel + 1, n => if n < 10 then [n] else decDigits fuel (n / 10) ++ [n % 10]

/-- Go: `strconv.FormatUint(n, 10)` for a 64-bit `n` (at most 20 digits). -/
def FormatUint (n : Nat) : Bytes :=
  (decDigits 20 n).map (fun d => (48 + d).toUInt8)

/-- Go: `strconv.FormatInt(i, 10)`. -/
def FormatInt (i : Int) : Bytes :=
  if i < 0 then 45 :: FormatUint (-i).toNat else FormatUint i.toNat

/-! ## `badger.go`: `Incr`, and `kv.go`: `WithTxn` -/

/-- Go: `func (s *Store) Incr(ctx, _txn, key, increment, opts) (int64, error)`. -/
def Store.Incr (E : Engine) (txn : Txn) (key : Bytes) (increment : Int)
    (opts : Option SetOptions) : (Int × Status) × Txn :=
  let ttl : Int := ttlOf opts
  let got := txn.Get E key
  let prev : Option Entry := match got with
    | .ok item => some item
    | .error _ => none
  let err : Option BadgerErr := match got with
    | .ok _ => none
    | .error e => some e
  if err ≠ none ∧ err ≠ some .ErrKeyNotFound then ((0, ofBadger err), txn)
  else
    let parsed : Int × Bool := match prev with
      | some item => ((ParseInt item.Value).1, decide ((ParseInt item.Value).2 ≠ none))
      | none => (0, false)
    let num := parsed.1
    let invalid := parsed.2
    if invalid then ((0, .err .ErrInvalidNum), txn)
    else
      let num := wrapInt64 (num + increment)
      let val := FormatInt num
      let r := Store.setEntry E txn key val ttl
      match r.1 with
      | .nil => ((num, .nil), r.2)
      | e => ((0, e), r.2)

/-- The last steps of `Store.Incr`, from `val := strconv.FormatInt(num, 10)` on, for the new
number `num`: used to state what `Store.Incr` does in each of its cases. -/
def incrWriteBack (E : Engine) (txn : Txn) (key : Bytes) (num : Int) (ttl : Int) :
    (Int × Status) × Txn :=
  match (Store.setEntry E txn key (FormatInt num) ttl).1 with
  | .nil => ((num, .nil), (Store.setEntry E txn key (FormatInt num) ttl).2)
  | e => ((0, e), (Store.setEntry E txn key (FormatInt num) ttl).2)

/-- Go: `func WithTxn(store Store, update bool, fn func(txn any) error) error`. The closure `fn`
also yields what it assigns to the variables it captures. The deferred `Discard` runs on every
path, a panic in `fn` included. -/
def WithTxn {β : Type} (E : Engine) (db : DB) (update : Bool)
    (fn : Txn → (Status × β) × Txn) : (Status × β) × DB :=
  let t := Store.NewTransaction db update
  let r := fn t.1
  match r.1.1 with
  | .nil =>
    let c := Store.Commit E t.2 r.2
    ((c.1, r.1.2), Store.Discard c.2 r.2)
  | st => ((st, r.1.2), Store.Discard t.2 r.2)

/-! ## `bucket.go`: operations -/

/-- Go: `type OpType uint8`. -/
abbrev OpType := Nat

/-- Go: `OpTypeSet` (`iota` = 1). -/
def OpTypeSet : OpType := 1

/-- Go: `OpTypeDelete` (`iota` = 2). -/
def OpTypeDelete : OpType := 2

/-- Go: `type OpSet struct { Key; Value; TTL }`. -/
structure OpSet where
  Key : Bytes
  Value : Bytes
  TTL : Int
  deriving DecidableEq, Repr

/-- Go: `type OpDelete struct { Key }`. -/
structure OpDelete where
  Key : Bytes
  deriving DecidableEq, Repr

/-- Go: the `Data any` field of an `Operation`: a `*OpSet`, a `*OpDelete`, or something else. -/
inductive OpData
  | set (d : OpSet)
  | delete (d : OpDelete)
  | other
  deriving DecidableEq, Repr

/-- Go: `type Operation struct { Data any; Type OpType }` (the field `Type` is `Typ` here, `Type`
being reserved). -/
structure Operation where
  Data : OpData
  Typ : OpType
  deriving DecidableEq, Repr

/-- The TTL handed to the store: the bucket default, replaced by a positive explicit TTL. -/
def Bucket.setOptions (b : Bucket) (ttl : Int) : SetOptions :=
  let opts : SetOptions := { TTL := b.opts.DefaultTTL }
  if ttl > 0 then { opts with TTL := ttl } else opts

/-- Go: `func (b *Bucket) Set(ctx, key, val, ttl) error`. -/
def Bucket.Set (E : Engine) (b : Bucket) (db : DB) (key val : Bytes) (ttl : Int) : Status × DB :=
  let uKey := b.udataKey key _markKeyValue
  let opts := b.setOptions ttl
  let r := WithTxn E db true (fun txn =>
    let s := Store.Set E txn uKey val (some opts)
    ((s.1, ()), s.2))
  (r.1.1, r.2)

/-- Go: `func (b *Bucket) Incr(ctx, key, increment, ttl) (int64, error)`. -/
def Bucket.Incr (E : Engine) (b : Bucket) (db : DB) (key : Bytes) (increment : Int) (ttl : Int) :
    (Int × Status) × DB :=
  let uKey := b.udataKey key _markKeyValue
  let opts := b.setOptions ttl
  let r := WithTxn E db true (fun txn =>
    let s := Store.Incr E txn uKey increment (some opts)
    ((s.1.2, s.1.1), s.2))
  ((r.1.2, r.1.1), r.2)

/-- Go: `func (b *Bucket) Get(ctx, key) ([]byte, error)`. -/
def Bucket.Get (E : Engine) (b : Bucket) (db : DB) (key : Bytes) : (Bytes × Status) × DB :=
  let uKey := b.udataKey key _markKeyValue
  let r := WithTxn E db false (fun txn =>
    match Store.Get E txn uKey with
    | .ok v => ((Status.nil, v), txn)
    | .error e => ((Status.err e, []), txn))
  ((r.1.2, r.1.1), r.2)

/-- Go: `func (b *Bucket) Delete(ctx, key) error`. -/
def Bucket.Delete (E : Engine) (b : Bucket) (db : DB) (key : Bytes) : Status × DB :=
  let uKey := b.udataKey key _markKeyValue
  let r := WithTxn E db true (fun txn =>
    let s := Store.Delete E txn uKey
    ((s.1, ()), s.2))
  (r.1.1, r.2)

/-- Go: the body of the loop of `ApplyTxn` for one element of `ops []*Operation` (`none` is a nil
pointer). A failed type assertion and a nil dereference panic. -/
def applyOp (E : Engine) (b : Bucket) (txn : Txn) (op : Option Operation) : Status × Txn :=
  match op with
  | none => (.panic "nil pointer dereference", txn)
  | some op =>
    if op.Typ = OpTypeSet then
      match op.Data with
      | .set d =>
        let uKey := b.udataKey d.Key _markKeyValue
        let opts := b.setOptions d.TTL
        Store.Set E txn uKey d.Value (some opts)
      | _ => (.panic "interface conversion", txn)
    else if op.Typ = OpTypeDelete then
      match op.Data with
      | .delete d =>
        let uKey := b.udataKey d.Key _markKeyValue
        Store.Delete E txn uKey
      | _ => (.panic "interface conversion", txn)
    else (.nil, txn)

/-- Go: the loop `for _, op := range ops` of `ApplyTxn`: it stops at the first failure. -/
def applyOps (E : Engine) (b : Bucket) : List (Option Operation) → Txn → Status × Txn
  | [], txn => (.nil, txn)
  | op :: rest, txn =>
    match applyOp E b txn op with
    | (.nil, txn1) => applyOps E b rest txn1
    | (st, txn1) => (st, txn1)

/-- Go: `func (b *Bucket) ApplyTxn(ctx, ops []*Operation) error`. -/
def Bucket.ApplyTxn (E : Engine) (b : Bucket) (db : DB) (ops : List (Option Operation)) :
    Status × DB :=
  if ops.length = 0 then (.nil, db)
  else
    let r := WithTxn E db true (fun txn =>
      let s := applyOps E b ops txn
      ((s.1, ()), s.2))
    (r.1.1, r.2)

/-! ## Sample inputs -/

/-- An engine with the clock at 1 700 000 000 s on which no call fails. -/
def sampleEngine : Engine :=
  { now := 1700000000000000000
    getFault := fun _ _ => none
    setFault := fun _ _ _ => none
    deleteFault := fun _ _ => none
    commitFault := fun _ => none }

/-- An engine whose transactions take one write only: a further write fails with the engine's
`ErrTxnTooBig`. -/
def tinyTxnEngine : Engine :=
  { sampleEngine with
    setFault := fun t _ _ => if t.pending.length ≥ 1 then some .ErrTxnTooBig else none
    deleteFault := fun t _ => if t.pending.length ≥ 1 then some .ErrTxnTooBig else none }

/-- A bucket without a default TTL. -/
def sampleBucket : Bucket := { opts := {}, name := sampleNameA }

/-- A bucket whose `DefaultTTL` is 60 s. -/
def sampleBucketTTL : Bucket := { opts := { DefaultTTL := 60000000000 }, name := sampleNameA }

/-- An empty store. -/
def emptyDB : DB := { data := [], log := [] }

/-- Go: `&Operation{Data: &OpSet{...}, Type: OpTypeSet}`. -/
def opSet (key val : String) (ttl : Int) : Option Operation :=
  some { Data := .set { Key := ascii key, Value := ascii val, TTL := ttl }, Typ := OpTypeSet }

/-- Go: `&Operation{Data: &OpDelete{...}, Type: OpTypeDelete}`. -/
def opDelete (key : String) : Option Operation :=
  some { Data := .delete { Key := ascii key }, Typ := OpTypeDelete }

/-! ## Reference definitions for the operations -/

/-- TTL precedence as the specification words it: the explicit TTL if positive, else the
bucket's `DefaultTTL` if positive, else no expiry (`none`). -/
def effectiveTTL (ttl defaultTTL : Int) : Option Int :=
  if ttl > 0 then some ttl else if defaultTTL > 0 then some defaultTTL else none

/-- The `ExpiresAt` of an entry written now with the given lifetime; `0` stands for no expiry. -/
def expiryOf (E : Engine) (life : Option Int) : Nat :=
  match life with
  | some t => expiresAt E t
  | none => 0

/-- An element of a batch is well formed when it is a `Set` operation carrying an `OpSet` or a
`Delete` operation carrying an `OpDelete`. -/
def WellFormedOp (op : Option Operation) : Prop :=
  (∃ s : OpSet, op = some { Data := .set s, Typ := OpTypeSet }) ∨
  (∃ x : OpDelete, op = some { Data := .delete x, Typ := OpTypeDelete })

/-- The logical key an operation touches. -/
def opKey (op : Option Operation) : Option Bytes :=
  match op with
  | some { Data := .set s, .. } => some s.Key
  | some { Data := .delete x, .. } => some x.Key
  | _ => none

/-- The entry an operation leaves under its key: the value with its expiry for `Set`, nothing
for `Delete`. -/
def opEntry (E : Engine) (b : Bucket) (op : Option Operation) : Option Entry :=
  match op with
  | some { Data := .set s, .. } =>
    some { Value := s.Value, ExpiresAt := expiryOf E (effectiveTTL s.TTL b.opts.DefaultTTL) }
  | _ => none

/-- The effect of one operation on the committed entries, as the specification states it:
`Set{key, value, ttl}` writes the bucket's namespaced key, `Delete{key}` removes it. -/
def opEffect (E : Engine) (b : Bucket) (d : Data) (op : Option Operation) : Data :=
  match op with
  | some { Data := .set s, .. } =>
    Data.put d (b.name ++ _markKeyValue ++ s.Key)
      { Value := s.Value, ExpiresAt := expiryOf E (effectiveTTL s.TTL b.opts.DefaultTTL) }
  | some { Data := .delete x, .. } => Data.del d (b.name ++ _markKeyValue ++ x.Key)
  | _ => d

/-! ## Reference definition of the increment -/

/-- The signed 64-bit range. -/
def isInt64 (n : Int) : Prop := -9223372036854775808 ≤ n ∧ n ≤ 9223372036854775807

instance (n : Int) : Decidable (isInt64 n) := by unfold isInt64; infer_instance

/-- A decimal digit character. -/
def isDigit (c : UInt8) : Bool := decide (48 ≤ c.toNat) && decide (c.toNat ≤ 57)

/-- The number a string of decimal digits denotes. -/
def digitsValue (ds : Bytes) : Nat :=
  ds.foldl (fun acc c => acc * 10 + (c.toNat - 48)) 0

/-- The integer a base-10 text denotes: an optional sign `+` or `-`, then one or more decimal
digits. Any other text, the empty one included, denotes no integer: it is non-numeric. -/
def decimalValue (v : Bytes) : Option Int :=
  match v with
  | [] => none
  | c :: rest =>
    if c = 45 then
      if rest ≠ [] ∧ rest.all isDigit = true then some (-(digitsValue rest : Int)) else none
    else if c = 43 then
      if rest ≠ [] ∧ rest.all isDigit = true then some (digitsValue rest : Int) else none
    else
      if v.all isDigit = true then some (digitsValue v : Int) else none

/-- The value a transaction sees under a key: the value of the entry pending for the key in the
transaction, else of the entry of the snapshot; a deleted or expired entry is not seen. -/
def Txn.view (E : Engine) (t : Txn) (key : Bytes) : Option Bytes :=
  match pendingGet t.pending key with
  | some w => (w.filter (fun e => !e.expired E)).map (fun e => e.Value)
  | none => ((Data.get t.snapshot key).filter (fun e => !e.expired E)).map (fun e => e.Value)

/-- The value stored under a key in the committed entries, an expired entry counting as
absent. -/
def Data.live (E : Engine) (d : Data) (key : Bytes) : Option Bytes :=
  ((Data.get d key).filter (fun e => !e.expired E)).map (fun e => e.Value)

/-- The increment as the specification defines it, from the stored value (`none`: the key is
absent) and the delta, to the result and the text to store, or the error: an absent key gives
`delta`; the base-10 text of a signed 64-bit integer `n` gives `n + delta`; any other text is
`ErrInvalidNum`. -/
def incrSpec (stored : Option Bytes) (delta : Int) : Except Err (Int × Bytes) :=
  match stored with
  | none => .ok (delta, FormatInt delta)
  | some v =>
    match decimalValue v with
    | some n => if isInt64 n then .ok (n + delta, FormatInt (n + delta)) else .error .ErrInvalidNum
    | none => .error .ErrInvalidNum

/-- The increment of `incrSpec` with the sum taken in wrapping signed 64-bit arithmetic. -/
def incrSpecWrap (stored : Option Bytes) (delta : Int) : Except Err (Int × Bytes) :=
  match stored with
  | none => .ok (delta, FormatInt delta)
  | some v =>
    match decimalValue v with
    | some n =>
      if isInt64 n then .ok (wrapInt64 (n + delta), FormatInt (wrapInt64 (n + delta)))
      else .error .ErrInvalidNum
    | none => .error .ErrInvalidNum

/-- What `Store.Incr` is to yield in a transaction for an outcome of the reference definition:
the number and one more pending write holding the text, or the error and the transaction as it
was. -/
def incrOutcome (E : Engine) (t : Txn) (key : Bytes) (ttl : Int)
    (r : Except Err (Int × Bytes)) : (Int × Status) × Txn :=
  match r with
  | .ok (n, text) => ((n, .nil), { t with pending :=
      (key, some (Entry.mk text (if ttl > 0 then expiresAt E ttl else 0))) :: t.pending })
  | .error e => ((0, .err e), t)

/-- What `Bucket.Incr` is to return for an outcome of the reference definition. -/
def incrReturn (r : Except Err (Int × Bytes)) : Int × Status :=
  match r with
  | .ok (n, _) => (n, .nil)
  | .error e => (0, .err e)

/-- The committed entries `Bucket.Incr` is to leave for an outcome of the reference definition:
the text written under the namespaced key with the expiry of the TTL precedence rule, or the
entries as they were. -/
def incrCommitted (E : Engine) (b : Bucket) (d : Data) (key : Bytes) (ttl : Int)
    (r : Except Err (Int × Bytes)) : Data :=
  match r with
  | .ok (_, text) =>
    Data.put d (b.name ++ _markKeyValue ++ key)
      { Value := text, ExpiresAt := expiryOf E (effectiveTTL ttl b.opts.DefaultTTL) }
  | .error _ => d

/-- A write transaction on a store holding the largest signed 64-bit number under `n`. -/
def maxNumTxn : Txn :=
  { id := 0, update := true, pending := [],
    snapshot := [(ascii "n", { Value := ascii "9223372036854775807", ExpiresAt := 0 })] }

/-- A write transaction on a store holding `41` under `n`, the empty value under `e` and the
text `abc` under `t`. -/
def numbersTxn : Txn :=
  { id := 0, update := true, pending := [],
    snapshot := [(ascii "n", { Value := ascii "41", ExpiresAt := 0 }),
                 (ascii "e", { Value := [], ExpiresAt := 0 }),
                 (ascii "t", { Value := ascii "abc", ExpiresAt := 0 })] }

/-! ## Lua values (gopher-lua), as far as `internal/core` touches them

Lua numbers are modelled by integers; a table is modelled by its fields, as a value. -/

/-- A table key: a string (`RawGetString`, `RawSetString`) or an integer (`RawSetInt`). -/
inductive LKey
  | str (s : String)
  | int (i : Int)
  deriving DecidableEq, Repr

mutual
/-- Go: `lua.LValue`. -/
inductive LValue
  | LNil
  | LBool (b : Bool)
  | LNumber (n : Int)
  | LString (s : String)
  | LTable (t : LFields)
  | LFunction (name : String)
/-- The fields of a `*lua.LTable`, oldest first. -/
inductive LFields
  | nil
  | cons (k : LKey) (v : LValue) (rest : LFields)
end

deriving instance DecidableEq for LValue
deriving instance DecidableEq for LFields

/-- Go: `tb.RawGet(key)`: `LNil` when the key has no value. -/
def LFields.RawGet : LFields → LKey → LValue
  | .nil, _ => .LNil
  | .cons k1 v rest, k => if k1 = k then v else LFields.RawGet rest k

/-- Remove a key from the fields. -/
def LFields.erase : LFields → LKey → LFields
  | .nil, _ => .nil
  | .cons k1 v rest, k => if k1 = k then LFields.erase rest k else .cons k1 v (LFields.erase rest k)

/-- Add a field at the end. -/
def LFields.snoc : LFields → LKey → LValue → LFields
  | .nil, k, v => .cons k v .nil
  | .cons k1 v1 rest, k, v => .cons k1 v1 (LFields.snoc rest k v)

/-- Go: `tb.RawSet(key, value)`: an existing field is replaced in place, a new one is added,
and setting `LNil` removes the field. -/
def LFields.RawSet : LFields → LKey → LValue → LFields
  | t, k, .LNil => LFields.erase t k
  | .nil, k, v => .cons k v .nil
  | .cons k1 v1 rest, k, v =>
    if k1 = k then .cons k1 v rest else .cons k1 v1 (LFields.RawSet rest k v)

/-- Go: `tb.RawGetString(key)`. -/
def LFields.RawGetString (t : LFields) (key : String) : LValue := t.RawGet (.str key)

/-- Go: `tb.RawSetString(key, value)`. -/
def LFields.RawSetString (t : LFields) (key : String) (v : LValue) : LFields :=
  t.RawSet (.str key) v

/-- Go: `tb.RawSetInt(key, value)`. -/
def LFields.RawSetInt (t : LFields) (key : Int) (v : LValue) : LFields :=
  t.RawSet (.int key) v

/-- The fields as a list, for `ForEach`. -/
def LFields.toList : LFields → List (LKey × LValue)
  | .nil => []
  | .cons k v rest => (k, v) :: LFields.toList rest

/-! ## HTTP: the response writer and the request -/

/-- The calls made on an `http.ResponseWriter`; `Redirect` stands for
`http.Redirect(w, r, url, code)` and `Error` for `http.Error(w, error, code)`. -/
inductive RespCall
  | SetHeader (key value : String)
  | WriteHeader (code : Int)
  | Write (body : Bytes)
  | Redirect (url : String) (code : Int)
  | Error (error : Bytes) (code : Int)
  deriving DecidableEq, Repr

/-- An `http.ResponseWriter`: the calls made on it, oldest first. -/
abbrev Response := List RespCall

/-- Go: `url.Values`, a map from a parameter name to its values. -/
abbrev Values := List (String × List String)

/-- What the handlers read of an `*http.Request`: the method, the route variable `key`
(`mux.Vars(r)["key"]`), the outcome of `io.ReadAll(r.Body)`, `r.URL.Query()`, the form of the
body (`r.PostForm` after `r.ParseForm()`, `none` for nil), the number
`cast.ToInt64(r.URL.Query().Get("ttl"))` and the route variable `bucket`
(`mux.Vars(r)["bucket"]`). -/
structure Request where
  Method : String
  key : Bytes
  Body : Except String Bytes
  Query : Values
  PostForm : Option Values
  ttl : Int
  bucket : Bytes := []

/-- A Go `error` value as the handlers see it: an error of the store, the `*lua.ApiError` of a
script with its error object, or any other error. -/
inductive GoError
  | store (e : Err)
  | lua (obj : LValue)
  | other (msg : String)
  deriving DecidableEq

/-- What a Go call with an `error` result does, at the level of scripts and handlers. -/
inductive Outcome
  | nil
  | err (e : GoError)
  | panic (msg : String)
  deriving DecidableEq

/-- What a `handleFunc` does: it returns `(status, err)` or panics. -/
inductive HandlerOut
  | ret (status : Int) (err : Option GoError)
  | panic (msg : String)
  deriving DecidableEq

/-- Go: `time.Duration(n) * time.Second`, an `int64` product. -/
def seconds (n : Int) : Int := wrapInt64 (n * 1000000000)

/-! ## `internal/model/request/request.go` and `internal/http/keys.go`

The handlers below are the functions that `withBucket` wraps: `b` is the bucket `withBucket`
has loaded into `d.bucket`. -/

/-- Go: `http.StatusBadRequest`. -/
def StatusBadRequest : Int := 400

/-- Go: `http.StatusRequestEntityTooLarge`. -/
def StatusRequestEntityTooLarge : Int := 413

/-- Go: `http.StatusInternalServerError`. -/
def StatusInternalServerError : Int := 500

/-- Go: `type Txn struct { Set *string; Value *string; TTL *int; Delete *string }` of package
`request`; `none` is a nil pointer, that is, a field that is absent (or `null`) in the JSON. -/
structure request.Txn where
  Set : Option Bytes
  Value : Option Bytes
  TTL : Option Int
  Delete : Option Bytes
  deriving DecidableEq, Repr

/-- Go: `type ExecuteTransactionRequest struct { Txn []*Txn }`; a `null` element of the JSON
array decodes to a nil pointer, `none`. -/
structure request.ExecuteTransactionRequest where
  Txn : List (Option request.Txn)
  deriving DecidableEq, Repr

/-- How the loop of `executeTxn` over `req.Txn` ends: with the operations built, with the
`invalid operation` response, or with a panic. -/
inductive BuiltOps
  | ops (l : List (Option Operation))
  | invalid
  | panic (msg : String)
  deriving DecidableEq, Repr

/-- Go: the loop `for _, item := range req.Txn` of `executeTxn`, with `ops` the operations built
so far. Reading `item.Set` of a nil `item` panics. -/
def buildOps : List (Option request.Txn) → List (Option Operation) → BuiltOps
  | [], ops => .ops ops
  | none :: _, _ => .panic "nil pointer dereference"
  | some item :: rest, ops =>
    if item.Set ≠ none ∧ item.Value ≠ none ∧ item.TTL ≠ none ∧ item.Delete = none then
      buildOps rest (ops ++ [some {
        Data := .set { Key := item.Set.getD [], Value := item.Value.getD [],
                       TTL := seconds (item.TTL.getD 0) },
        Typ := OpTypeSet }])
    else if item.Set = none ∧ item.Value = none ∧ item.TTL = none ∧ item.Delete ≠ none then
      buildOps rest (ops ++ [some {
        Data := .delete { Key := item.Delete.getD [] },
        Typ := OpTypeDelete }])
    else .invalid

/-- Go: `var executeTxn = withBucket(func(w, r, d) (int, error) {...})`. `unmarshal` stands for
`json.Unmarshal(body, &req)`. -/
def executeTxn (E : Engine)
    (unmarshal : Bytes → Except String request.ExecuteTransactionRequest)
    (b : Bucket) (db : DB) (w : Response) (r : Request) : HandlerOut × Response × DB :=
  match r.Body with
  | .error msg => (.ret StatusInternalServerError (some (.other msg)), w, db)
  | .ok body =>
    match unmarshal body with
    | .error msg => (.ret StatusBadRequest (some (.other msg)), w, db)
    | .ok req =>
      match buildOps req.Txn [] with
      | .panic msg => (.panic msg, w, db)
      | .invalid =>
        (.ret 0 none, w ++ [.WriteHeader StatusBadRequest, .Write (ascii "invalid operation")], db)
      | .ops ops =>
        let res := b.ApplyTxn E db ops
        match res.1 with
        | .nil => (.ret 0 none, w, res.2)
        | .err e =>
          if e = .ErrTxnTooBig then
            (.ret 0 none,
              w ++ [.WriteHeader StatusRequestEntityTooLarge, .Write (ascii "txn too big")], res.2)
          else (.ret StatusInternalServerError (some (.store e)), w, res.2)
        | .panic msg => (.panic msg, w, res.2)

/-- Go: the `increment` that `incrKeyValue` computes from the body and hands to `Bucket.Incr`:
`strconv.ParseInt(body[1:], 10, 64)` once the body has passed the check of its length and of
its first byte; `none` when the handler answers 400 instead. -/
def incrKeyValueIncrement (body : Bytes) : Option Int :=
  if body.length < 2 ∨ (body.headD 0 ≠ 45 ∧ body.headD 0 ≠ 43) then none
  else
    let p := ParseInt (body.drop 1)
    if p.2 ≠ none then none else some p.1

/-- Go: `var incrKeyValue = withBucket(func(w, r, d) (int, error) {...})`. -/
def incrKeyValue (E : Engine) (b : Bucket) (db : DB) (w : Response) (r : Request) :
    HandlerOut × Response × DB :=
  match r.Body with
  | .error msg => (.ret StatusInternalServerError (some (.other msg)), w, db)
  | .ok body =>
    if body.length < 2 ∨ (body.headD 0 ≠ 45 ∧ body.headD 0 ≠ 43) then
      (.ret 0 none, w ++ [.WriteHeader StatusBadRequest, .Write (ascii "invalid body")], db)
    else
      let p := ParseInt (body.drop 1)
      if p.2 ≠ none then
        (.ret 0 none, w ++ [.WriteHeader StatusBadRequest, .Write (ascii "invalid num")], db)
      else
        let increment := p.1
        let key := r.key
        let ttl := seconds r.ttl
        let res := b.Incr E db key increment ttl
        match res.1.2 with
        | .nil => (.ret 0 none, w ++ [.Write (FormatInt res.1.1)], res.2)
        | .err e =>
          if e = .ErrInvalidNum then
            (.ret 0 none,
              w ++ [.WriteHeader StatusBadRequest,
                    .Write (ascii "key `" ++ key ++ ascii "` is not a number")], res.2)
          else (.ret StatusInternalServerError (some (.store e)), w, res.2)
        | .panic msg => (.panic msg, w, res.2)

/-! ## `internal/core/lua.go` -/

/-- Go: `_kvdbExitReason = "__kvdb_exit_reason"`. -/
def _kvdbExitReason : String := "__kvdb_exit_reason"

/-- Go: `_kvdbExitPayload = "__kvdb_exit_payload"`. -/
def _kvdbExitPayload : String := "__kvdb_exit_payload"

/-- Go: `func safeExit(l, reason, payload)`: the table it builds, which `l.Error(tb, 0)` raises
as the error object. -/
def safeExit (reason : String) (payload : Option LValue) : LValue :=
  let tb := LFields.nil
  let tb := tb.RawSetString _kvdbExitReason (.LString reason)
  let tb := match payload with
    | some p => tb.RawSetString _kvdbExitPayload p
    | none => tb.RawSetString _kvdbExitPayload .LNil
  .LTable tb

/-- Go: `func urlValuesToLua(l, tb, m)`: a parameter with one value becomes a string, one with
several values a table filled by `arr.RawSetInt(i, ...)` with `i` the Go index of the value. -/
def urlValuesToLua (tb : LFields) (m : Values) : LFields :=
  m.foldl (fun tb kv =>
    if kv.2.length = 1 then tb.RawSetString kv.1 (.LString (kv.2.headD ""))
    else if kv.2.length > 0 then
      let arr := kv.2.enum.foldl
        (fun arr is => LFields.RawSetInt arr (is.1 : Int) (.LString is.2)) LFields.nil
      tb.RawSetString kv.1 (.LTable arr)
    else tb) tb

/-- Go: the names of the functions `mkLua` puts in the module table. -/
def capabilityNames : List String :=
  ["say", "print", "redirect", "exit", "get", "delete", "set", "incr", "escape_html"]

/-- Go: `func mkLua(w, r, b, txn, l) *lua.LTable`: the module table `kvdb`. What its functions
do when a script calls them is in `Script.run`. -/
def mkLua (r : Request) : LFields :=
  let reqVar := urlValuesToLua LFields.nil r.Query
  let reqVar :=
    if r.Method = "POST" then
      match r.PostForm with
      | some form => urlValuesToLua reqVar form
      | none => reqVar
    else reqVar
  let mod := LFields.nil
  let mod := capabilityNames.foldl (fun m name => m.RawSetString name (.LFunction name)) mod
  let mod := mod.RawSetString "var" (.LTable reqVar)
  let mod := mod.RawSetString "status" (.LNumber 200)
  let mod := mod.RawSetString "header" (.LTable LFields.nil)
  mod

/-- What a run of a script does, seen from the host: the calls of the functions of the module
`kvdb` it makes, in order, each with what the script does next given the result of the call,
and the way the run ends. A function of `kvdb` that fails raises a Lua error; the script goes
on from the error (it may catch it) and, when it does not catch it, ends with `error`. -/
inductive Script
  /-- The chunk runs to its end: `DoString` returns `nil`. -/
  | done
  /-- An uncaught Lua error with this error object: `DoString` returns a `*lua.ApiError`. -/
  | error (obj : LValue)
  /-- Go: `DoString` returns an error that is not a `*lua.ApiError`. -/
  | abort (msg : String)
  /-- Lua: `kvdb.exit(code)`, not caught. -/
  | exit (code : Int)
  /-- Lua: `kvdb.redirect(url)` or `kvdb.redirect(url, code)`, not caught. -/
  | redirect (url : String) (code : Option Int)
  /-- Lua: `kvdb.say(msg)`. -/
  | say (msg : Bytes) (next : Script)
  /-- Lua: `kvdb.print(msg)`. -/
  | print (msg : Bytes) (next : Script)
  /-- Lua: `kvdb.get(key)`. -/
  | get (key : Bytes) (next : Except Err (Option Bytes) → Script)
  /-- Lua: `kvdb.delete(key)`. -/
  | delete (key : Bytes) (next : Except Err Unit → Script)
  /-- Lua: `kvdb.set(key, val)` or `kvdb.set(key, val, ttl)`. -/
  | set (key val : Bytes) (ttl : Option Int) (next : Except Err Unit → Script)
  /-- Lua: `kvdb.incr(key, increment)` or `kvdb.incr(key, increment, ttl)`. -/
  | incr (key : Bytes) (increment : Int) (ttl : Option Int) (next : Except Err Int → Script)
  /-- The script changes fields of the module table, such as `kvdb.status` and `kvdb.header`. -/
  | update (f : LFields → LFields) (next : Script)

/-- What the functions of `mkLua` hold and a run changes: the transaction, the output buffer
`w` and the module table. -/
structure LuaEnv where
  txn : Txn
  buf : Bytes
  mod : LFields
  deriving DecidableEq

/-- The result of `l.DoString(script)`: `nil`, a `*lua.ApiError` with its error object, or
another error. -/
inductive DoStringResult
  | nil
  | apiError (obj : LValue)
  | other (msg : String)
  deriving DecidableEq

/-- The result of a store call as a function of `mkLua` hands it to the script: a panic inside
a Lua call is recovered by the interpreter as an error. -/
def luaResult (st : Status) : Except Err Unit :=
  match st with
  | .nil => .ok ()
  | .err e => .error e
  | .panic msg => .error (.engine (.other msg))

/-- Go: the options `set` and `incr` of `mkLua` build from the optional Lua argument `ttl`
(seconds). -/
def luaSetOptions (b : Bucket) (ttl : Option Int) : SetOptions :=
  let ttl : Int := ttl.getD 0
  let opts : SetOptions := { TTL := b.opts.DefaultTTL }
  if ttl > 0 then { opts with TTL := seconds ttl } else opts

/-- Go: `l.DoString(script)` with the module of `mkLua` installed: the functions of the module
act on the supplied transaction and buffer. -/
def Script.run (E : Engine) (b : Bucket) : Script → LuaEnv → DoStringResult × LuaEnv
  | .done, env => (.nil, env)
  | .error obj, env => (.apiError obj, env)
  | .abort msg, env => (.other msg, env)
  | .exit code, env => (.apiError (safeExit "exit" (some (.LNumber code))), env)
  | .redirect url code, env =>
    let code : Int := code.getD 302
    let tb := LFields.nil
    let tb := tb.RawSetString "url" (.LString url)
    let tb := tb.RawSetString "code" (.LNumber code)
    (.apiError (safeExit "redirect" (some (.LTable tb))), env)
  | .say msg next, env => Script.run E b next { env with buf := env.buf ++ msg ++ [10] }
  | .print msg next, env => Script.run E b next { env with buf := env.buf ++ msg }
  | .get key next, env =>
    let uKey := b.udataKey key _markKeyValue
    match Store.Get E env.txn uKey with
    | .ok val => Script.run E b (next (.ok (some val))) env
    | .error e =>
      if e = .ErrKeyNotFound then Script.run E b (next (.ok none)) env
      else Script.run E b (next (.error e)) env
  | .delete key next, env =>
    let uKey := b.udataKey key _markKeyValue
    let r := Store.Delete E env.txn uKey
    Script.run E b (next (luaResult r.1)) { env with txn := r.2 }
  | .set key val ttl next, env =>
    let uKey := b.udataKey key _markKeyValue
    let opts := luaSetOptions b ttl
    let r := Store.Set E env.txn uKey val (some opts)
    Script.run E b (next (luaResult r.1)) { env with txn := r.2 }
  | .incr key increment ttl next, env =>
    let uKey := b.udataKey key _markKeyValue
    let opts := luaSetOptions b ttl
    let r := Store.Incr E env.txn uKey increment (some opts)
    Script.run E b (next ((luaResult r.1.2).map (fun _ => r.1.1))) { env with txn := r.2 }
  | .update f next, env => Script.run E b next { env with mod := f env.mod }

/-! ## `bucket.go`: scripts -/

/-- Go: `func (b *Bucket) StoreScript(ctx, name, content) error`. -/
def Bucket.StoreScript (E : Engine) (b : Bucket) (db : DB) (name content : Bytes) : Status × DB :=
  let key := b.udataKey name _markScripts
  let r := WithTxn E db true (fun txn =>
    let s := Store.Set E txn key content none
    ((s.1, ()), s.2))
  (r.1.1, r.2)

/-- Go: `func (b *Bucket) loadScript(ctx, name) ([]byte, error)`. -/
def Bucket.loadScript (E : Engine) (b : Bucket) (db : DB) (name : Bytes) : (Bytes × Status) × DB :=
  let key := b.udataKey name _markScripts
  let r := WithTxn E db false (fun txn =>
    match Store.Get E txn key with
    | .ok v => ((Status.nil, v), txn)
    | .error e => ((Status.err e, []), txn))
  ((r.1.2, r.1.1), r.2)

/-- Go: the calls `w.Header().Set(k, v)` of `header.ForEach` in `DoScript`, for the fields of
the table `header` whose key and value are both strings. -/
def headerCalls (h : LFields) : List RespCall :=
  h.toList.filterMap (fun kv =>
    match kv.1, kv.2 with
    | .str k, .LString v => some (.SetHeader k v)
    | _, _ => none)

/-- Go (`net/http`): the status a response has got from the calls made on its writer, if any:
the code of the first `WriteHeader`, `Redirect` or `Error`, or 200 when a `Write` came first.
Setting a header gives no status. -/
def responseStatus : Response → Option Int
  | [] => none
  | .SetHeader _ _ :: rest => responseStatus rest
  | .WriteHeader code :: _ => some code
  | .Write _ :: _ => some 200
  | .Redirect _ code :: _ => some code
  | .Error _ code :: _ => some code

/-- Go (`net/http`, `checkWriteHeaderCode`): the status codes `WriteHeader` accepts, 100 to
999. -/
def validStatusCode (code : Int) : Bool := decide (100 ≤ code) && decide (code ≤ 999)

/-- Go (`net/http`): whether `w.WriteHeader(code)` panics: it does, with
`invalid WriteHeader code`, for a code outside 100 to 999 when the response has no status
yet. -/
def writeHeaderPanics (w : Response) (code : Int) : Bool :=
  (responseStatus w).isNone && !validStatusCode code

/-- Go: the end of `DoScript`, from `if header, ok := mod.RawGetString("header")...` on: the
headers, the status and the buffer are written to the response; a `w.WriteHeader` that panics
ends it before the buffer is written. -/
def finishScript (mod : LFields) (buf : Bytes) (exitCode : Int) (w : Response) :
    Outcome × Response :=
  let w := match mod.RawGetString "header" with
    | .LTable header => w ++ headerCalls header
    | _ => w
  if exitCode > 0 then
    if writeHeaderPanics w exitCode then (.panic "invalid WriteHeader code", w)
    else (.nil, w ++ [.WriteHeader exitCode] ++ [.Write buf])
  else
    match mod.RawGetString "status" with
    | .LNumber code =>
      if writeHeaderPanics w code then (.panic "invalid WriteHeader code", w)
      else (.nil, w ++ [.WriteHeader code] ++ [.Write buf])
    | _ => (.nil, w ++ [.Write buf])

/-- Go: `func (b *Bucket) DoScript(ctx, w, r, name) error`. `interp` is the Lua interpreter: it
gives the run of a script source. The pooled interpreter and buffer are fresh: the buffer is
empty. The deferred `Discard` runs on every path after the transaction is opened, also when
`http.Redirect` or `w.WriteHeader` panics on a status code that `net/http` does not accept. -/
def Bucket.DoScript (E : Engine) (interp : Bytes → Script) (b : Bucket) (db : DB)
    (w : Response) (r : Request) (name : Bytes) : Outcome × Response × DB :=
  let ls := b.loadScript E db name
  match ls.1.2 with
  | .err e => (.err (.store e), w, ls.2)
  | .panic msg => (.panic msg, w, ls.2)
  | .nil =>
    let script := ls.1.1
    let t := Store.NewTransaction ls.2 true
    let mod := mkLua r
    let run := (interp script).run E b { txn := t.1, buf := [], mod := mod }
    let env := run.2
    match run.1 with
    | .other msg => (.err (.other msg), w, Store.Discard t.2 env.txn)
    | .apiError obj =>
      match obj with
      | .LTable tb =>
        match tb.RawGetString _kvdbExitReason with
        | .LString reason =>
          if reason = "redirect" then
            match tb.RawGetString _kvdbExitPayload with
            | .LTable p =>
              match p.RawGetString "url" with
              | .LString url =>
                match p.RawGetString "code" with
                | .LNumber code =>
                  if writeHeaderPanics w code then
                    (.panic "invalid WriteHeader code", w, Store.Discard t.2 env.txn)
                  else (.nil, w ++ [.Redirect url code], Store.Discard t.2 env.txn)
                | _ => (.panic "interface conversion", w, Store.Discard t.2 env.txn)
              | _ => (.panic "interface conversion", w, Store.Discard t.2 env.txn)
            | _ => (.panic "interface conversion", w, Store.Discard t.2 env.txn)
          else if reason = "exit" then
            match tb.RawGetString _kvdbExitPayload with
            | .LNumber code =>
              ((finishScript env.mod env.buf code w).1, (finishScript env.mod env.buf code w).2,
                Store.Discard t.2 env.txn)
            | _ => (.panic "interface conversion", w, Store.Discard t.2 env.txn)
          else (.err (.lua obj), w, Store.Discard t.2 env.txn)
        | _ => (.err (.lua obj), w, Store.Discard t.2 env.txn)
      | _ => (.err (.lua obj), w, Store.Discard t.2 env.txn)
    | .nil =>
      let c := Store.Commit E t.2 env.txn
      match c.1 with
      | .nil =>
        ((finishScript env.mod env.buf 0 w).1, (finishScript env.mod env.buf 0 w).2,
          Store.Discard c.2 env.txn)
      | .err e => (.err (.store e), w, Store.Discard c.2 env.txn)
      | .panic msg => (.panic msg, w, Store.Discard c.2 env.txn)

/-! ## Sample inputs of the handlers and of scripts -/

/-- The JSON decoder on the bodies used as samples: `{"txn":[null]}` and
`{"txn":[{"set":"a","value":"1","ttl":0},null]}`. -/
def sampleUnmarshal (body : Bytes) : Except String request.ExecuteTransactionRequest :=
  if body = ascii "\x7b\"txn\":[null]\x7d" then .ok { Txn := [none] }
  else if body = ascii
      "\x7b\"txn\":[\x7b\"set\":\"a\",\"value\":\"1\",\"ttl\":0\x7d,null]\x7d" then
    .ok { Txn := [some { Set := some (ascii "a"), Value := some (ascii "1"), TTL := some 0,
                         Delete := none }, none] }
  else .error "unexpected end of JSON input"

/-- A request with the given body, for the key `n`. -/
def sampleRequest (body : String) : Request :=
  { Method := "POST", key := ascii "n", Body := .ok (ascii body), Query := [],
    PostForm := none, ttl := 0 }

/-- A store in which the sample bucket holds `10` under the key `n`. -/
def tenDB : DB :=
  { data := [(sampleBucket.udataKey (ascii "n") _markKeyValue,
      { Value := ascii "10", ExpiresAt := 0 })], log := [] }

/-- The script source `kvdb.set("a","1") kvdb.exit(204)`. -/
def srcSetExit : Bytes := ascii "kvdb.set(\"a\",\"1\") kvdb.exit(204)"

/-- The script source `kvdb.set("a","1")`. -/
def srcSet : Bytes := ascii "kvdb.set(\"a\",\"1\")"

/-- The script source `kvdb.set("a","1") kvdb.say("hi") kvdb.redirect("/x", 301)`. -/
def srcSetRedirect : Bytes :=
  ascii "kvdb.set(\"a\",\"1\") kvdb.say(\"hi\") kvdb.redirect(\"/x\", 301)"

/-- The script source `kvdb.status = 404 kvdb.exit(0)`. -/
def srcExitZero : Bytes := ascii "kvdb.status = 404 kvdb.exit(0)"

/-- The script source `kvdb.exit(42)`. -/
def srcExit42 : Bytes := ascii "kvdb.exit(42)"

/-- The Lua interpreter on the sample sources; an error of `set` is not caught. -/
def sampleInterp (src : Bytes) : Script :=
  let uncaught (k : Script) (r : Except Err Unit) : Script :=
    match r with
    | .ok _ => k
    | .error _ => .error (.LString "set failed")
  if src = srcSetExit then .set (ascii "a") (ascii "1") none (uncaught (.exit 204))
  else if src = srcSet then .set (ascii "a") (ascii "1") none (uncaught .done)
  else if src = srcSetRedirect then
    .set (ascii "a") (ascii "1") none (uncaught (.say (ascii "hi") (.redirect "/x" (some 301))))
  else if src = srcExitZero then
    .update (fun m => m.RawSetString "status" (.LNumber 404)) (.exit 0)
  else if src = srcExit42 then .exit 42
  else .error (.LString "syntax error")

/-- A store in which the sample bucket holds the five sample scripts under the names `s1`,
`s2`, `s3`, `s4` and `s5`. -/
def scriptsDB : DB :=
  { data := [(sampleBucket.udataKey (ascii "s1") _markScripts,
                { Value := srcSetExit, ExpiresAt := 0 }),
             (sampleBucket.udataKey (ascii "s2") _markScripts,
                { Value := srcSet, ExpiresAt := 0 }),
             (sampleBucket.udataKey (ascii "s3") _markScripts,
                { Value := srcSetRedirect, ExpiresAt := 0 }),
             (sampleBucket.udataKey (ascii "s4") _markScripts,
                { Value := srcExitZero, ExpiresAt := 0 }),
             (sampleBucket.udataKey (ascii "s5") _markScripts,
                { Value := srcExit42, ExpiresAt := 0 })],
    log := [] }

/-- A `GET` request without parameters. -/
def getRequest : Request :=
  { Method := "GET", key := [], Body := .ok [], Query := [], PostForm := none, ttl := 0 }

/-- The run of the script inside `DoScript`: the source loaded under `name`, run in the
transaction `DoScript` opens, with an empty buffer and the module of `mkLua`. -/
def scriptRun (E : Engine) (interp : Bytes → Script) (b : Bucket) (db : DB) (r : Request)
    (name : Bytes) : DoStringResult × LuaEnv :=
  (interp (b.loadScript E db name).1.1).run E b
    { txn := (Store.NewTransaction (b.loadScript E db name).2 true).1, buf := [], mod := mkLua r }

/-- The `w.Header().Set` calls `DoScript` makes for a module table: those of its `header`
field when that is a table. -/
def scriptHeaders (mod : LFields) : List RespCall :=
  match mod.RawGetString "header" with
  | .LTable header => headerCalls header
  | _ => []

/-! ## `bucket.go`: loading a bucket, and `internal/http`: `withBucket`, `setKeyValue`, `handle` -/

/-- Go: `func (b *Bucket) loadOpts(ctx) error`, for the bucket name `name`: the options record
is read in a read transaction and decoded. `unmarshalOpts` stands for
`json.Unmarshal(val, b.opts)` into the zero options. -/
def loadOpts (E : Engine) (unmarshalOpts : Bytes → Except String BucketOptions) (db : DB)
    (name : Bytes) : Except GoError BucketOptions × DB :=
  let key := name ++ _markBucketOpts
  let r := WithTxn E db false (fun txn =>
    match Store.Get E txn key with
    | .ok v => ((Status.nil, v), txn)
    | .error e => ((Status.err e, []), txn))
  match r.1.1 with
  | .err e => (.error (.store e), r.2)
  | .panic msg => (.error (.other msg), r.2)
  | .nil =>
    match unmarshalOpts r.1.2 with
    | .error msg => (.error (.other msg), r.2)
    | .ok opts => (.ok opts, r.2)

/-- Go: `func LoadBucket(ctx, store, name) (*Bucket, error)`. No check is made on `name`. -/
def LoadBucket (E : Engine) (unmarshalOpts : Bytes → Except String BucketOptions) (db : DB)
    (name : Bytes) : Except GoError Bucket × DB :=
  let r := loadOpts E unmarshalOpts db name
  match r.1 with
  | .error e => (.error e, r.2)
  | .ok opts => (.ok { opts := opts, name := name }, r.2)

/-- Go: `http.StatusNotFound`. -/
def StatusNotFound : Int := 404

/-- Go: `func withBucket(next handleFunc) handleFunc`; `next` takes the bucket put in
`d.bucket`. -/
def withBucket (E : Engine) (unmarshalOpts : Bytes → Except String BucketOptions)
    (next : Bucket → DB → Response → Request → HandlerOut × Response × DB)
    (db : DB) (w : Response) (r : Request) : HandlerOut × Response × DB :=
  let lb := LoadBucket E unmarshalOpts db r.bucket
  match lb.1 with
  | .error e =>
    if e = .store .ErrKeyNotFound then
      (.ret 0 none, w ++ [.WriteHeader StatusNotFound, .Write (ascii "bucket not found")], lb.2)
    else (.ret StatusInternalServerError (some e), w, lb.2)
  | .ok bucket => next bucket lb.2 w r

/-- Go: `var setKeyValue = withBucket(func(_, r, d) (int, error) {...})`, the function wrapped:
the result of `d.bucket.Set` is assigned to `_`. -/
def setKeyValue (E : Engine) (b : Bucket) (db : DB) (w : Response) (r : Request) :
    HandlerOut × Response × DB :=
  match r.Body with
  | .error msg => (.ret StatusInternalServerError (some (.other msg)), w, db)
  | .ok val =>
    let ttl := seconds r.ttl
    let res := b.Set E db r.key val ttl
    match res.1 with
    | .panic msg => (.panic msg, w, res.2)
    | _ => (.ret 0 none, w, res.2)

/-- Go: `var deleteKeyValue = withBucket(func(_, r, d) (int, error) {...})`, the function
wrapped. -/
def deleteKeyValue (E : Engine) (b : Bucket) (db : DB) (w : Response) (r : Request) :
    HandlerOut × Response × DB :=
  let res := b.Delete E db r.key
  match res.1 with
  | .nil => (.ret 0 none, w, res.2)
  | .err _ => (.ret StatusInternalServerError none, w, res.2)
  | .panic msg => (.panic msg, w, res.2)

/-- Go: `http.StatusText(code)`, for the codes of this package. -/
def StatusText (code : Int) : Bytes :=
  if code = 400 then ascii "Bad Request"
  else if code = 404 then ascii "Not Found"
  else if code = 413 then ascii "Request Entity Too Large"
  else if code = 500 then ascii "Internal Server Error"
  else []

/-- What serving a request through `handle` leaves: whether the handler panicked (the panic
goes on to the recovery middleware), whether `log.Printf` was called, the response and the
store. -/
structure Served where
  panicked : Option String
  logged : Bool
  w : Response
  db : DB
  deriving DecidableEq

/-- Go: `func handle(fn handleFunc, store kv.Store) http.Handler`, serving one request. -/
def handle (fn : DB → Response → Request → HandlerOut × Response × DB) (db : DB)
    (w : Response) (r : Request) : Served :=
  match fn db w r with
  | (.panic msg, w1, db1) => { panicked := some msg, logged := false, w := w1, db := db1 }
  | (.ret status err, w1, db1) =>
    let logged : Bool := decide (status ≥ 400) || decide (err ≠ none)
    if status ≠ 0 then
      { panicked := none, logged := logged, db := db1,
        w := w1 ++ [.Error (FormatInt status ++ ascii " " ++ StatusText status) status] }
    else { panicked := none, logged := logged, w := w1, db := db1 }

/-- The JSON text `json.Marshal` gives the zero `BucketOptions`. -/
def zeroOptsJSON : Bytes :=
  ascii ("\x7b\"SecretKey\":\"\",\"ReadKey\":\"\",\"WriteKey\":\"\"," ++
    "\"SigningKey\":\"\",\"DefaultTTL\":0\x7d")

/-- The JSON decoder of bucket options on the sample records: the text of the zero options
and the text of the empty object. -/
def sampleUnmarshalOpts (val : Bytes) : Except String BucketOptions :=
  if val = zeroOptsJSON then .ok {}
  else if val = ascii "\x7b\x7d" then .ok {}
  else .error "invalid character"

/-- A store in which the bucket named `sampleNameA` is provisioned, with the zero options. -/
def provisionedDB : DB :=
  { data := [(sampleNameA ++ _markBucketOpts, { Value := zeroOptsJSON, ExpiresAt := 0 })],
    log := [] }

/-- An engine on which every write fails. -/
def failingSetEngine : Engine :=
  { sampleEngine with setFault := fun _ _ _ => some (.other "no space left on device") }

/-- A `POST` request on the bucket `sampleNameA`, for the key `k`, with the body `v`. -/
def setRequest : Request :=
  { Method := "POST", key := ascii "k", Body := .ok (ascii "v"), Query := [],
    PostForm := none, ttl := 0, bucket := sampleNameA }

/-! ## `internal/pool/lstate.go`: the interpreter pool

An interpreter instance (`*lua.LState`) is named by the number of instances the factory has
made before it: every call of the factory yields a new instance. -/

/-- Go: `type lstatePool struct { factory; limit; pool; m }`: `size` is the capacity of the
channel `limit`, `limit` the number of elements in it (the slots taken), `pool` the free list,
and `made` the number of instances the factory has made. -/
structure lstatePool where
  size : Nat
  limit : Nat
  pool : List Nat
  made : Nat
  deriving DecidableEq, Repr

/-- Go: `func newLStatePool(size int, factory func() *lua.LState) *lstatePool`. -/
def newLStatePool (size : Nat) : lstatePool :=
  { size := size, limit := 0, pool := [], made := 0 }

/-- Go: `func (pl *lstatePool) Get() *lua.LState`. The send `pl.limit <- struct{}{}` goes through
only while the channel is not full; `none` is a call that blocks. -/
def lstatePool.Get (pl : lstatePool) : Option (Nat × lstatePool) :=
  if pl.limit < pl.size then
    let pl := { pl with limit := pl.limit + 1 }
    let n := pl.pool.length
    if n = 0 then some (pl.made, { pl with made := pl.made + 1 })
    else
      let x := pl.pool.getD (n - 1) 0
      some (x, { pl with pool := pl.pool.take (n - 1) })
  else none

/-- Go: `func (pl *lstatePool) Put(lstate *lua.LState)`. The receive `<-pl.limit` goes through
only while the channel is not empty; `none` is a call that blocks. -/
def lstatePool.Put (pl : lstatePool) (lstate : Nat) : Option lstatePool :=
  let pl := { pl with pool := pl.pool ++ [lstate] }
  if pl.limit > 0 then some { pl with limit := pl.limit - 1 } else none

/-- The pool together with the instances handed out by `Get` and not yet given back. -/
structure PoolState where
  pl : lstatePool
  out : List Nat
  deriving DecidableEq, Repr

/-- A step of the pool: a `Get` that goes through hands its instance out; a `Put` of an
instance that is handed out takes it back. -/
inductive PoolStep : PoolState → PoolState → Prop
  | get (s : PoolState) (x : Nat) (pl1 : lstatePool) (h : s.pl.Get = some (x, pl1)) :
      PoolStep s { pl := pl1, out := x :: s.out }
  | put (s : PoolState) (x : Nat) (pl1 : lstatePool) (hx : x ∈ s.out)
      (h : s.pl.Put x = some pl1) : PoolStep s { pl := pl1, out := s.out.erase x }

/-- The states the pool of capacity `C` reaches from the empty pool. -/
inductive PoolReachable (C : Nat) : PoolState → Prop
  | init : PoolReachable C { pl := newLStatePool C, out := [] }
  | step (s t : PoolState) (hs : PoolReachable C s) (ht : PoolStep s t) : PoolReachable C t

/-- The invariant of the pool of capacity `C`: the slots taken are the instances handed out;
the free list and the handed-out instances together are without duplicates, are instances the
factory has made, and are at most `C`. -/
def PoolInv (C : Nat) (s : PoolState) : Prop :=
  s.pl.size = C ∧ s.pl.limit = s.out.length ∧ (s.pl.pool ++ s.out).Nodup ∧
  (∀ x ∈ s.pl.pool ++ s.out, x < s.pl.made) ∧ s.pl.pool.length + s.out.length ≤ C

/-- The pool of capacity 2 after two calls of `Get`. -/
def poolAfterTwoGets : PoolState :=
  { pl := { size := 2, limit := 2, pool := [], made := 2 }, out := [1, 0] }

/-- The pool of capacity 2 after two calls of `Get` and the `Put` of the first instance. -/
def poolAfterPut : PoolState :=
  { pl := { size := 2, limit := 1, pool := [0], made := 2 }, out := [1] }

/-- The pool of capacity 2 after one call of `Get`. -/
def poolAfterOneGet : PoolState :=
  { pl := { size := 2, limit := 1, pool := [], made := 1 }, out := [0] }

/-! ## Lua sequences, and sample inputs for buckets and parameters -/

/-- Lua: the number of positions `i`, `i + 1`, ... of a table that hold a value, up to the
first that holds none, looking at `fuel` positions at most. -/
def LFields.lenFrom (t : LFields) : Nat → Int → Nat
  | 0, _ => 0
  | fuel + 1, i =>
    match t.RawGet (.int i) with
    | .LNil => 0
    | _ => 1 + LFields.lenFrom t fuel (i + 1)

/-- Lua: the length `#t` of a table that is a sequence: the number of positions 1, 2, ... that
hold a value, up to the first that holds none. -/
def LFields.Len (t : LFields) : Nat := t.lenFrom t.toList.length 1

/-- Go: the table `arr` that `urlValuesToLua` fills for a parameter with the values `v`. -/
def valuesArray (v : List String) : LFields :=
  v.enum.foldl (fun arr is => LFields.RawSetInt arr (is.1 : Int) (.LString is.2)) LFields.nil

/-- A sequence of calls `b.Set(key, val, ttl)` on a bucket, each given as `(key, val, ttl)`. -/
def setMany (E : Engine) (b : Bucket) (db : DB) (calls : List (Bytes × Bytes × Int)) : DB :=
  calls.foldl (fun db c => (b.Set E db c.1 c.2.1 c.2.2).2) db

/-! ## Namespacing (C1) -/

theorem markKeyValue_bytes : _markKeyValue = [58, 107, 118, 58] := by decide

theorem markBucketOpts_bytes : _markBucketOpts = [58, 111, 112, 116, 115] := by decide

theorem markScripts_bytes : _markScripts = [58, 115, 99, 114, 105, 112, 116, 115, 58] := by decide

/-- Two physical keys built from names of the same length agree only if the names agree and the
parts after the name agree. -/
theorem name_prefix_inj (n1 n2 r1 r2 : Bytes) (hlen : n1.length = n2.length)
    (h : n1 ++ r1 = n2 ++ r2) : n1 = n2 ∧ r1 = r2 :=
  List.append_inj h hlen

theorem kv_mark_ne_opts (K : Bytes) : _markKeyValue ++ K ≠ _markBucketOpts := by
  rw [markKeyValue_bytes, markBucketOpts_bytes]
  intro h
  simp only [List.cons_append, List.cons.injEq] at h
  exact absurd h.2.1 (by decide)

theorem kv_mark_ne_scripts (K S : Bytes) : _markKeyValue ++ K ≠ _markScripts ++ S := by
  rw [markKeyValue_bytes, markScripts_bytes]
  intro h
  simp only [List.cons_append, List.cons.injEq] at h
  exact absurd h.2.1 (by decide)

/-- C1. For two distinct bucket names of the provisioned length (21 bytes) and any logical keys
`K1`, `K2`, the physical key-value key of `(b1, K1)` differs from that of `(b2, K2)`; and it
differs from the options-record key and from every script key of every bucket with a name of
that length (the bucket `b1` itself included). -/
theorem udataKey_namespacing (b1 b2 : Bucket)
    (h1 : b1.name.length = _bucketNameLen) (h2 : b2.name.length = _bucketNameLen)
    (hne : b1.name ≠ b2.name) (K1 K2 : Bytes) :
    b1.udataKey K1 _markKeyValue ≠ b2.udataKey K2 _markKeyValue ∧
    ∀ b : Bucket, b.name.length = _bucketNameLen →
      b1.udataKey K1 _markKeyValue ≠ b.optsKey ∧
      ∀ S : Bytes, b1.udataKey K1 _markKeyValue ≠ b.udataKey S _markScripts := by
  refine ⟨?_, ?_⟩
  · intro h
    simp only [Bucket.udataKey, List.nil_append, List.append_assoc] at h
    exact hne (name_prefix_inj _ _ _ _ (h1.trans h2.symm) h).1
  · intro b hb
    refine ⟨?_, ?_⟩
    · intro h
      simp only [Bucket.udataKey, Bucket.optsKey, List.nil_append, List.append_assoc] at h
      exact kv_mark_ne_opts K1 (name_prefix_inj _ _ _ _ (h1.trans hb.symm) h).2
    · intro S h
      simp only [Bucket.udataKey, List.nil_append, List.append_assoc] at h
      exact kv_mark_ne_scripts K1 S (name_prefix_inj _ _ _ _ (h1.trans hb.symm) h).2

theorem udataKey_namespacing_witness :
    (⟨{}, sampleNameA⟩ : Bucket).udataKey (ascii "k") _markKeyValue
      ≠ (⟨{}, sampleNameB⟩ : Bucket).udataKey (ascii "k") _markKeyValue :=
  (udataKey_namespacing ⟨{}, sampleNameA⟩ ⟨{}, sampleNameB⟩ (by decide) (by decide) (by decide)
    (ascii "k") (ascii "k")).1

/-! ## Atomicity of `ApplyTxn` (C2) -/

theorem applyOps_cons_nil (E : Engine) (b : Bucket) (op : Option Operation)
    (rest : List (Option Operation)) (t t1 : Txn) (h : applyOp E b t op = (.nil, t1)) :
    applyOps E b (op :: rest) t = applyOps E b rest t1 := by
  simp [applyOps, h]

theorem applyOps_cons_fail (E : Engine) (b : Bucket) (op : Option Operation)
    (rest : List (Option Operation)) (t t1 : Txn) (st : Status)
    (h : applyOp E b t op = (st, t1)) (hst : st ≠ .nil) :
    applyOps E b (op :: rest) t = (st, t1) := by
  cases st with
  | nil => exact absurd rfl hst
  | err e => simp [applyOps, h]
  | panic m => simp [applyOps, h]

/-- The loop stops at the first operation that fails: its status is the status of the loop. -/
theorem applyOps_append_fail (E : Engine) (b : Bucket) (pre post : List (Option Operation))
    (op : Option Operation) (t0 t1 t2 : Txn) (st : Status)
    (hpre : applyOps E b pre t0 = (.nil, t1)) (hop : applyOp E b t1 op = (st, t2))
    (hst : st ≠ .nil) : applyOps E b (pre ++ op :: post) t0 = (st, t2) := by
  induction pre generalizing t0 with
  | nil =>
    simp only [applyOps, Prod.mk.injEq, true_and] at hpre
    subst hpre
    simpa using applyOps_cons_fail E b op post t0 t2 st hop hst
  | cons p pre ih =>
    rcases hp : applyOp E b t0 p with ⟨s, t⟩
    cases s with
    | nil =>
      rw [applyOps_cons_nil E b p pre t0 t hp] at hpre
      rw [List.cons_append, applyOps_cons_nil E b p _ t0 t hp]
      exact ih t hpre
    | err e =>
      rw [applyOps_cons_fail E b p pre t0 t _ hp (by simp)] at hpre
      simp at hpre
    | panic m =>
      rw [applyOps_cons_fail E b p pre t0 t _ hp (by simp)] at hpre
      simp at hpre

/-- A unit of work that does not return `nil` leaves the committed entries as they were. -/
theorem WithTxn_fail_data {β : Type} (E : Engine) (db : DB) (update : Bool)
    (fn : Txn → (Status × β) × Txn)
    (h : (fn (Store.NewTransaction db update).1).1.1 ≠ .nil) :
    (WithTxn E db update fn).1.1 = (fn (Store.NewTransaction db update).1).1.1 ∧
    (WithTxn E db update fn).2.data = db.data := by
  unfold WithTxn
  dsimp only
  generalize fn (Store.NewTransaction db update).1 = r at h ⊢
  rcases r with ⟨⟨s, out⟩, t⟩
  cases s with
  | nil => exact absurd rfl h
  | err e => exact ⟨rfl, rfl⟩
  | panic m => exact ⟨rfl, rfl⟩

/-- C2. In a batch `pre ++ op :: post` given to `ApplyTxn`, if the operations of `pre` succeed in
the transaction and applying `op` then fails with status `st` (an error of a store call, or a
panic), `ApplyTxn` yields `st` and the committed entries of the store are the ones before the
call: no write of `pre` is visible. -/
theorem ApplyTxn_atomic (E : Engine) (b : Bucket) (db : DB)
    (pre post : List (Option Operation)) (op : Option Operation) (t1 : Txn) (st : Status)
    (hpre : applyOps E b pre (Store.NewTransaction db true).1 = (.nil, t1))
    (hop : (applyOp E b t1 op).1 = st) (hst : st ≠ .nil) :
    (Bucket.ApplyTxn E b db (pre ++ op :: post)).1 = st ∧
    (Bucket.ApplyTxn E b db (pre ++ op :: post)).2.data = db.data := by
  have hloop : applyOps E b (pre ++ op :: post) (Store.NewTransaction db true).1
      = (st, (applyOp E b t1 op).2) :=
    applyOps_append_fail E b pre post op _ t1 _ st hpre (by rw [← hop]) hst
  have hw := WithTxn_fail_data E db true
    (fun txn => (((applyOps E b (pre ++ op :: post) txn).1, ()),
      (applyOps E b (pre ++ op :: post) txn).2)) (by simpa [hloop] using hst)
  have hlen : (pre ++ op :: post).length ≠ 0 := by simp
  simp only [Bucket.ApplyTxn, hlen, if_false]
  refine ⟨?_, hw.2⟩
  rw [hw.1]
  simp [hloop]

theorem ApplyTxn_atomic_witness :
    applyOps tinyTxnEngine sampleBucket [opSet "a" "1" 0] (Store.NewTransaction emptyDB true).1
      = (.nil, { id := 0, update := true, snapshot := [],
                 pending := [(sampleBucket.udataKey (ascii "a") _markKeyValue,
                   some { Value := ascii "1", ExpiresAt := 0 })] }) ∧
    (Bucket.ApplyTxn tinyTxnEngine sampleBucket emptyDB
      ([opSet "a" "1" 0] ++ opSet "b" "2" 0 :: [opDelete "a"])).1
        = .err (.engine .ErrTxnTooBig) ∧
    (Bucket.ApplyTxn tinyTxnEngine sampleBucket emptyDB
      ([opSet "a" "1" 0] ++ opSet "b" "2" 0 :: [opDelete "a"])).2.data = emptyDB.data :=
  ⟨by decide,
   ApplyTxn_atomic tinyTxnEngine sampleBucket emptyDB [opSet "a" "1" 0] [opDelete "a"]
    (opSet "b" "2" 0)
    { id := 0, update := true, snapshot := [],
      pending := [(sampleBucket.udataKey (ascii "a") _markKeyValue,
        some { Value := ascii "1", ExpiresAt := 0 })] }
    (.err (.engine .ErrTxnTooBig)) (by decide) (by decide) (by decide)⟩

/-! ## Lookup after writes -/

theorem Data.del_cons_eq (d : Data) (k : Bytes) (e : Entry) :
    Data.del ((k, e) :: d) k = Data.del d k := by
  simp [Data.del, List.filter_cons]

theorem Data.del_cons_ne (d : Data) (k k1 : Bytes) (e : Entry) (h : k1 ≠ k) :
    Data.del ((k1, e) :: d) k = (k1, e) :: Data.del d k := by
  simp [Data.del, List.filter_cons, h]

theorem Data.get_del_self (d : Data) (k : Bytes) : Data.get (Data.del d k) k = none := by
  induction d with
  | nil => rfl
  | cons p d ih =>
    rcases p with ⟨k1, e⟩
    by_cases h : k1 = k
    · subst h
      rw [Data.del_cons_eq]
      exact ih
    · rw [Data.del_cons_ne d k k1 e h]
      simp [Data.get, h, ih]

theorem Data.get_del_other (d : Data) (k k1 : Bytes) (h : k1 ≠ k) :
    Data.get (Data.del d k1) k = Data.get d k := by
  induction d with
  | nil => rfl
  | cons p d ih =>
    rcases p with ⟨k2, e⟩
    by_cases h2 : k2 = k1
    · subst h2
      rw [Data.del_cons_eq]
      simp [Data.get, h, ih]
    · rw [Data.del_cons_ne d k1 k2 e h2]
      by_cases h3 : k2 = k
      · simp [Data.get, h3]
      · simp [Data.get, h3, ih]

theorem Data.get_put_self (d : Data) (k : Bytes) (e : Entry) :
    Data.get (Data.put d k e) k = some e := by
  simp [Data.put, Data.get]

theorem Data.get_put_other (d : Data) (k k1 : Bytes) (e : Entry) (h : k1 ≠ k) :
    Data.get (Data.put d k1 e) k = Data.get d k := by
  simp [Data.put, Data.get, h, Data.get_del_other d k k1 h]

/-! ## TTL precedence in the code -/

/-- The expiry that `setEntry` computes from the options `Bucket.setOptions` builds is the one of
the TTL precedence rule. -/
theorem setOptions_expiry (E : Engine) (b : Bucket) (ttl : Int) :
    (if (b.setOptions ttl).TTL > 0 then expiresAt E (b.setOptions ttl).TTL else 0)
      = expiryOf E (effectiveTTL ttl b.opts.DefaultTTL) := by
  unfold Bucket.setOptions effectiveTTL expiryOf
  by_cases h : ttl > 0
  · simp [h]
  · by_cases h2 : b.opts.DefaultTTL > 0
    · simp [h, h2]
    · simp [h, h2]

/-- On an engine without faults, `Store.Set` in a write transaction adds one pending write
whose expiry follows the TTL precedence rule. -/
theorem Store.Set_noFaults (E : Engine) (hE : E.NoFaults) (b : Bucket) (t : Txn)
    (hu : t.update = true) (key val : Bytes) (ttl : Int) :
    Store.Set E t key val (some (b.setOptions ttl)) =
      (.nil, { t with pending :=
        (key, some (Entry.mk val (expiryOf E (effectiveTTL ttl b.opts.DefaultTTL))))
          :: t.pending }) := by
  have hx := setOptions_expiry E b ttl
  unfold Store.Set Store.setEntry Txn.SetEntry
  simp only [hu, hE.2.1, ofBadger, ttlOf]
  by_cases h : (b.setOptions ttl).TTL > 0
  · simp [h] at hx ⊢
    exact hx
  · simp [h] at hx ⊢
    exact hx

theorem Store.Delete_noFaults (E : Engine) (hE : E.NoFaults) (t : Txn)
    (hu : t.update = true) (key : Bytes) :
    Store.Delete E t key = (.nil, { t with pending := (key, none) :: t.pending }) := by
  unfold Store.Delete Txn.Delete
  simp [hu, hE.2.2.1, ofBadger]

/-! ## `ApplyTxn` applies the operations in order (C6) -/

/-- On an engine without faults a well-formed operation adds exactly one pending write, whose
effect at commit is the effect the specification gives the operation. -/
theorem applyOp_noFaults (E : Engine) (hE : E.NoFaults) (b : Bucket) (t : Txn)
    (hu : t.update = true) (op : Option Operation) (hwf : WellFormedOp op) :
    ∃ w : Write, applyOp E b t op = (.nil, { t with pending := w :: t.pending }) ∧
      ∀ d : Data, Data.apply d w = opEffect E b d op := by
  rcases hwf with ⟨s, rfl⟩ | ⟨x, rfl⟩
  · refine ⟨(b.udataKey s.Key _markKeyValue,
      some (Entry.mk s.Value (expiryOf E (effectiveTTL s.TTL b.opts.DefaultTTL)))), ?_, ?_⟩
    · simp only [applyOp, if_true]
      exact Store.Set_noFaults E hE b t hu _ _ _
    · intro d
      simp [Data.apply, opEffect, Bucket.udataKey]
  · refine ⟨(b.udataKey x.Key _markKeyValue, none), ?_, ?_⟩
    · have h12 : ¬ (OpTypeDelete = OpTypeSet) := by decide
      simp only [applyOp, h12, if_false, if_true]
      exact Store.Delete_noFaults E hE t hu _
    · intro d
      simp [Data.apply, opEffect, Bucket.udataKey]

/-- On an engine without faults the loop of `ApplyTxn` succeeds on well-formed operations, and
committing the writes it leaves pending is the left fold of the operations. -/
theorem applyOps_noFaults (E : Engine) (hE : E.NoFaults) (b : Bucket)
    (ops : List (Option Operation)) (hwf : ∀ op ∈ ops, WellFormedOp op) (t : Txn)
    (hu : t.update = true) :
    ∃ t1 : Txn, applyOps E b ops t = (.nil, t1) ∧ t1.id = t.id ∧
      ∀ d : Data, commitWrites d t1.pending = ops.foldl (opEffect E b) (commitWrites d t.pending) := by
  induction ops generalizing t with
  | nil => exact ⟨t, rfl, rfl, fun _ => rfl⟩
  | cons op ops ih =>
    obtain ⟨w, hop, hw⟩ := applyOp_noFaults E hE b t hu op (hwf op (List.mem_cons_self _ _))
    obtain ⟨t1, h1, hid, hc⟩ := ih (fun o ho => hwf o (List.mem_cons_of_mem _ ho))
      { t with pending := w :: t.pending } hu
    refine ⟨t1, ?_, hid, ?_⟩
    · rw [applyOps_cons_nil E b op ops t _ hop]
      exact h1
    · intro d
      rw [hc d]
      simp [commitWrites, hw]

/-- Operations that do not touch a key leave what is stored under it. -/
theorem foldl_opEffect_get (E : Engine) (b : Bucket) (post : List (Option Operation))
    (k : Bytes) (hk : ∀ o ∈ post, opKey o ≠ some k) (d : Data) :
    Data.get (post.foldl (opEffect E b) d) (b.name ++ _markKeyValue ++ k)
      = Data.get d (b.name ++ _markKeyValue ++ k) := by
  induction post generalizing d with
  | nil => rfl
  | cons o post ih =>
    rw [List.foldl_cons, ih (fun o ho => hk o (List.mem_cons_of_mem _ ho))]
    have ho := hk o (List.mem_cons_self _ _)
    rcases o with _ | ⟨⟨s⟩ | ⟨x⟩ | _, ty⟩
    · rfl
    · have hne : b.name ++ _markKeyValue ++ s.Key ≠ b.name ++ _markKeyValue ++ k := by
        intro h
        exact ho (by simpa [opKey] using List.append_cancel_left h)
      simp only [opEffect]
      exact Data.get_put_other d _ _ _ hne
    · have hne : b.name ++ _markKeyValue ++ x.Key ≠ b.name ++ _markKeyValue ++ k := by
        intro h
        exact ho (by simpa [opKey] using List.append_cancel_left h)
      simp only [opEffect]
      exact Data.get_del_other d _ _ hne
    · rfl

/-- The entry an operation leaves under its own key. -/
theorem opEffect_get_self (E : Engine) (b : Bucket) (op : Option Operation) (k : Bytes)
    (hk : opKey op = some k) (d : Data) :
    Data.get (opEffect E b d op) (b.name ++ _markKeyValue ++ k) = opEntry E b op := by
  rcases op with _ | ⟨⟨s⟩ | ⟨x⟩ | _, ty⟩
  · simp [opKey] at hk
  · simp only [opKey, Option.some.injEq] at hk
    subst hk
    simp only [opEffect, opEntry]
    exact Data.get_put_self d _ _
  · simp only [opKey, Option.some.injEq] at hk
    subst hk
    simp only [opEffect, opEntry]
    exact Data.get_del_self d _
  · simp [opKey] at hk

/-- C6. On an engine on which no store call fails, for every sequence of well-formed operations
`ApplyTxn` succeeds and the committed entries are the left fold of the operations, in input
order, over the entries before the call; a non-empty sequence runs in one write transaction
(opened, committed and discarded once); the empty sequence leaves the store as it is; and what
is stored under a key afterwards is what the last operation touching that key leaves there. -/
theorem ApplyTxn_fold (E : Engine) (hE : E.NoFaults) (b : Bucket) (db : DB)
    (ops : List (Option Operation)) (hwf : ∀ op ∈ ops, WellFormedOp op) :
    (Bucket.ApplyTxn E b db ops).1 = .nil ∧
    (Bucket.ApplyTxn E b db ops).2.data = ops.foldl (opEffect E b) db.data ∧
    (ops ≠ [] → (Bucket.ApplyTxn E b db ops).2.log =
      .Discard db.log.length :: .Commit db.log.length ::
        .NewTransaction db.log.length true :: db.log) ∧
    (ops = [] → Bucket.ApplyTxn E b db ops = (.nil, db)) ∧
    (∀ (pre post : List (Option Operation)) (op : Option Operation) (k : Bytes),
      ops = pre ++ op :: post → opKey op = some k → (∀ o ∈ post, opKey o ≠ some k) →
      Data.get (Bucket.ApplyTxn E b db ops).2.data (b.udataKey k _markKeyValue)
        = opEntry E b op) := by
  have hdata : (Bucket.ApplyTxn E b db ops).1 = .nil ∧
      (Bucket.ApplyTxn E b db ops).2.data = ops.foldl (opEffect E b) db.data ∧
      (ops ≠ [] → (Bucket.ApplyTxn E b db ops).2.log =
        .Discard db.log.length :: .Commit db.log.length ::
          .NewTransaction db.log.length true :: db.log) := by
    rcases ops with _ | ⟨o, ops⟩
    · exact ⟨rfl, rfl, fun h => absurd rfl h⟩
    · obtain ⟨t1, h1, hid, hc⟩ := applyOps_noFaults E hE b (o :: ops) hwf
        (Store.NewTransaction db true).1 rfl
      have hlen : (o :: ops).length ≠ 0 := by simp
      simp only [Bucket.ApplyTxn, hlen, if_false, WithTxn, h1, Store.Commit, hE.2.2.2,
        Store.Discard, hc]
      refine ⟨trivial, ?_, fun _ => ?_⟩
      · simp [Store.NewTransaction, commitWrites]
      · simp [hid, Store.NewTransaction]
  refine ⟨hdata.1, hdata.2.1, hdata.2.2, ?_, ?_⟩
  · intro h
    subst h
    rfl
  · intro pre post op k hops hk hpost
    rw [hdata.2.1, hops, List.foldl_append, List.foldl_cons]
    simp only [Bucket.udataKey, List.nil_append]
    rw [foldl_opEffect_get E b post k hpost, opEffect_get_self E b op k hk]

theorem ApplyTxn_fold_witness :
    sampleEngine.NoFaults ∧
    (Bucket.ApplyTxn sampleEngine sampleBucket emptyDB
      [opSet "a" "1" 0, opDelete "a", opSet "a" "2" 0]).1 = .nil ∧
    (Bucket.ApplyTxn sampleEngine sampleBucket emptyDB
      [opSet "a" "1" 0, opDelete "a", opSet "a" "2" 0]).2.data
      = [(sampleBucket.udataKey (ascii "a") _markKeyValue, { Value := ascii "2", ExpiresAt := 0 })] :=
  have hE : sampleEngine.NoFaults := ⟨fun _ _ => rfl, fun _ _ _ => rfl, fun _ _ => rfl, fun _ => rfl⟩
  have h := ApplyTxn_fold sampleEngine hE sampleBucket emptyDB
    [opSet "a" "1" 0, opDelete "a", opSet "a" "2" 0]
    (by
      intro op hop
      simp only [List.mem_cons, List.mem_singleton, List.not_mem_nil, or_false] at hop
      rcases hop with rfl | rfl | rfl
      · exact Or.inl ⟨_, rfl⟩
      · exact Or.inr ⟨_, rfl⟩
      · exact Or.inl ⟨_, rfl⟩)
  ⟨hE, h.1, h.2.1.trans (by decide)⟩

/-! ## TTL precedence (C5) -/

/-- A `setEntry` that succeeds adds one pending write with the expiry of the given TTL. -/
theorem Store.setEntry_ok (E : Engine) (t : Txn) (key val : Bytes) (ttl : Int)
    (h : (Store.setEntry E t key val ttl).1 = .nil) :
    (Store.setEntry E t key val ttl).2 = { t with pending :=
      (key, some (Entry.mk val (if ttl > 0 then expiresAt E ttl else 0))) :: t.pending } := by
  unfold Store.setEntry Txn.SetEntry at h ⊢
  by_cases hu : t.update = false
  · simp [hu, ofBadger] at h
  · cases hf : E.setFault t key (if ttl > 0 then { Value := val, ExpiresAt := expiresAt E ttl }
        else { Value := val, ExpiresAt := 0 }) with
    | some e => simp [hu, hf, ofBadger] at h
    | none =>
      by_cases hp : ttl > 0
      · simp [hp] at hf
        simp [hu, hf, hp]
      · simp [hp] at hf
        simp [hu, hf, hp]

/-- A `Store.Set` that succeeds with the options of `Bucket.setOptions` adds one pending write
whose expiry follows the TTL precedence rule. -/
theorem Store.Set_ok (E : Engine) (b : Bucket) (t : Txn) (key val : Bytes) (ttl : Int)
    (h : (Store.Set E t key val (some (b.setOptions ttl))).1 = .nil) :
    (Store.Set E t key val (some (b.setOptions ttl))).2 = { t with pending :=
      (key, some (Entry.mk val (expiryOf E (effectiveTTL ttl b.opts.DefaultTTL))))
        :: t.pending } := by
  have h1 := Store.setEntry_ok E t key val (b.setOptions ttl).TTL h
  rw [setOptions_expiry] at h1
  exact h1

/-- A unit of work inside `WithTxn` that ends with `nil` overall has itself returned `nil`, and
the committed entries are then the former ones with its pending writes applied. -/
theorem WithTxn_ok_data {β : Type} (E : Engine) (db : DB) (update : Bool)
    (fn : Txn → (Status × β) × Txn) (h : (WithTxn E db update fn).1.1 = .nil) :
    (fn (Store.NewTransaction db update).1).1.1 = .nil ∧
    (WithTxn E db update fn).2.data
      = commitWrites db.data (fn (Store.NewTransaction db update).1).2.pending := by
  unfold WithTxn at h ⊢
  dsimp only at h ⊢
  generalize fn (Store.NewTransaction db update).1 = r at h ⊢
  rcases r with ⟨⟨s, out⟩, t⟩
  cases s with
  | nil =>
    refine ⟨rfl, ?_⟩
    simp only [Store.Commit] at h ⊢
    cases hc : E.commitFault t with
    | some e => simp [hc] at h
    | none => simp [Store.Discard, Store.NewTransaction]
  | err e => simp at h
  | panic m => simp at h

theorem commitWrites_cons_get (d : Data) (p : List Write) (k : Bytes) (e : Entry) :
    Data.get (commitWrites d ((k, some e) :: p)) k = some e := by
  simp [commitWrites, Data.apply, Data.get_put_self]

/-- Function `Store.Incr` on a key the transaction does not find: the new number is the increment. -/
theorem Store.Incr_absent (E : Engine) (t : Txn) (key : Bytes) (increment : Int)
    (opts : Option SetOptions) (hget : t.Get E key = .error .ErrKeyNotFound) :
    Store.Incr E t key increment opts
      = incrWriteBack E t key (wrapInt64 (0 + increment)) (ttlOf opts) := by
  unfold Store.Incr incrWriteBack
  simp [hget]

/-- Function `Store.Incr` on a key the transaction finds: the stored text is parsed; a parse error is
`ErrInvalidNum`, otherwise the new number is written back. -/
theorem Store.Incr_present (E : Engine) (t : Txn) (key : Bytes) (increment : Int)
    (opts : Option SetOptions) (item : Entry) (hget : t.Get E key = .ok item) :
    Store.Incr E t key increment opts =
      if (ParseInt item.Value).2 ≠ none then ((0, .err .ErrInvalidNum), t)
      else incrWriteBack E t key (wrapInt64 ((ParseInt item.Value).1 + increment))
        (ttlOf opts) := by
  unfold Store.Incr incrWriteBack
  by_cases hp : (ParseInt item.Value).2 = none
  · simp [hget, hp]
  · simp [hget, hp]

/-- Function `Store.Incr` when the read fails for another reason than a missing key. -/
theorem Store.Incr_getFault (E : Engine) (t : Txn) (key : Bytes) (increment : Int)
    (opts : Option SetOptions) (e : BadgerErr) (hget : t.Get E key = .error e)
    (he : e ≠ .ErrKeyNotFound) :
    Store.Incr E t key increment opts = ((0, .err (.engine e)), t) := by
  unfold Store.Incr
  simp [hget, he, ofBadger]

/-- A write-back that succeeds returns the number and adds one pending write holding its
decimal text. -/
theorem incrWriteBack_ok (E : Engine) (t : Txn) (key : Bytes) (num ttl : Int)
    (h : (incrWriteBack E t key num ttl).1.2 = .nil) :
    incrWriteBack E t key num ttl = ((num, .nil), { t with pending :=
      (key, some (Entry.mk (FormatInt num) (if ttl > 0 then expiresAt E ttl else 0)))
        :: t.pending }) := by
  unfold incrWriteBack at h ⊢
  cases hs : (Store.setEntry E t key (FormatInt num) ttl).1 with
  | nil =>
    have h2 := Store.setEntry_ok E t key (FormatInt num) ttl hs
    simp [h2]
  | err e => simp [hs] at h
  | panic m => simp [hs] at h

/-- On an engine without faults the write-back succeeds in a write transaction. -/
theorem incrWriteBack_noFaults (E : Engine) (hE : E.NoFaults) (t : Txn) (hu : t.update = true)
    (key : Bytes) (num ttl : Int) : (incrWriteBack E t key num ttl).1.2 = .nil := by
  have hs : (Store.setEntry E t key (FormatInt num) ttl).1 = .nil := by
    unfold Store.setEntry Txn.SetEntry
    simp [hu, hE.2.1, ofBadger]
  unfold incrWriteBack
  simp [hs]

/-- A `Store.Incr` that succeeds adds one pending write for the key, with the expiry of the TTL
of its options. -/
theorem Store.Incr_ok (E : Engine) (t : Txn) (key : Bytes) (increment : Int)
    (opts : Option SetOptions) (h : (Store.Incr E t key increment opts).1.2 = .nil) :
    ∃ v : Bytes, (Store.Incr E t key increment opts).2 = { t with pending :=
      (key, some (Entry.mk v (if ttlOf opts > 0 then expiresAt E (ttlOf opts) else 0)))
        :: t.pending } := by
  cases hg : t.Get E key with
  | ok item =>
    rw [Store.Incr_present E t key increment opts item hg] at h ⊢
    by_cases hp : (ParseInt item.Value).2 = none
    · simp only [hp, ne_eq, not_true_eq_false, if_false] at h ⊢
      rw [incrWriteBack_ok E t key _ _ h]
      exact ⟨_, rfl⟩
    · simp [hp] at h
  | error e =>
    by_cases he : e = .ErrKeyNotFound
    · subst he
      rw [Store.Incr_absent E t key increment opts hg] at h ⊢
      rw [incrWriteBack_ok E t key _ _ h]
      exact ⟨_, rfl⟩
    · rw [Store.Incr_getFault E t key increment opts e hg he] at h
      simp at h

/-- C5. The expiry of the entry written by `Bucket.Set`, by `Bucket.Incr` and by the `Set`
operation of `ApplyTxn` is the one of the explicit TTL when that is positive, otherwise the
one of the bucket's `DefaultTTL` when that is positive, otherwise none (`ExpiresAt = 0`); on an
engine on which no store call fails `Bucket.Set` does write. -/
theorem ttl_precedence (E : Engine) (b : Bucket) (db : DB) (key val : Bytes) (ttl : Int)
    (increment : Int) :
    ((Bucket.Set E b db key val ttl).1 = .nil →
      Data.get (Bucket.Set E b db key val ttl).2.data (b.udataKey key _markKeyValue)
        = some (Entry.mk val (expiryOf E (effectiveTTL ttl b.opts.DefaultTTL)))) ∧
    (E.NoFaults → (Bucket.Set E b db key val ttl).1 = .nil) ∧
    ((Bucket.Incr E b db key increment ttl).1.2 = .nil →
      ∃ v : Bytes,
        Data.get (Bucket.Incr E b db key increment ttl).2.data (b.udataKey key _markKeyValue)
          = some (Entry.mk v (expiryOf E (effectiveTTL ttl b.opts.DefaultTTL)))) ∧
    ((Bucket.ApplyTxn E b db
        [some { Data := .set { Key := key, Value := val, TTL := ttl }, Typ := OpTypeSet }]).1
        = .nil →
      Data.get (Bucket.ApplyTxn E b db
        [some { Data := .set { Key := key, Value := val, TTL := ttl }, Typ := OpTypeSet }]).2.data
        (b.udataKey key _markKeyValue)
        = some (Entry.mk val (expiryOf E (effectiveTTL ttl b.opts.DefaultTTL)))) ∧
    (0 < ttl → expiryOf E (effectiveTTL ttl b.opts.DefaultTTL) = expiresAt E ttl) ∧
    (ttl ≤ 0 → 0 < b.opts.DefaultTTL →
      expiryOf E (effectiveTTL ttl b.opts.DefaultTTL) = expiresAt E b.opts.DefaultTTL) ∧
    (ttl ≤ 0 → b.opts.DefaultTTL ≤ 0 →
      expiryOf E (effectiveTTL ttl b.opts.DefaultTTL) = 0) := by
  refine ⟨?_, ?_, ?_, ?_, ?_, ?_, ?_⟩
  · intro h
    unfold Bucket.Set at h ⊢
    dsimp only at h ⊢
    obtain ⟨h1, h2⟩ := WithTxn_ok_data E db true _ h
    rw [h2]
    dsimp only at h1 ⊢
    rw [Store.Set_ok E b _ _ _ _ h1]
    exact commitWrites_cons_get _ _ _ _
  · intro hE
    unfold Bucket.Set WithTxn
    simp [Store.Set_noFaults E hE b (Store.NewTransaction db true).1 rfl, Store.Commit,
      hE.2.2.2]
  · intro h
    unfold Bucket.Incr at h ⊢
    dsimp only at h ⊢
    obtain ⟨h1, h2⟩ := WithTxn_ok_data E db true _ h
    rw [h2]
    dsimp only at h1 ⊢
    obtain ⟨v, hv⟩ := Store.Incr_ok E _ _ _ _ h1
    refine ⟨v, ?_⟩
    rw [hv]
    have hx := setOptions_expiry E b ttl
    simp only [ttlOf]
    rw [hx]
    exact commitWrites_cons_get _ _ _ _
  · intro h
    unfold Bucket.ApplyTxn at h ⊢
    simp only [List.length_singleton, one_ne_zero, if_false] at h ⊢
    obtain ⟨h1, h2⟩ := WithTxn_ok_data E db true _ h
    rw [h2]
    simp only [applyOps, applyOp, if_true] at h1 ⊢
    cases hs : (Store.Set E (Store.NewTransaction db true).1 (b.udataKey key _markKeyValue) val
        (some (b.setOptions ttl))).1 with
    | nil =>
      have h3 := Store.Set_ok E b _ _ _ _ hs
      generalize Store.Set E (Store.NewTransaction db true).1
        (b.udataKey key _markKeyValue) val (some (b.setOptions ttl)) = r at hs h3 h1 ⊢
      rcases r with ⟨s, t⟩
      simp only at hs h3
      subst hs
      subst h3
      exact commitWrites_cons_get _ _ _ _
    | err e =>
      generalize Store.Set E (Store.NewTransaction db true).1
        (b.udataKey key _markKeyValue) val (some (b.setOptions ttl)) = r at hs h1
      rcases r with ⟨s, t⟩
      simp only at hs
      subst hs
      simp at h1
    | panic m =>
      generalize Store.Set E (Store.NewTransaction db true).1
        (b.udataKey key _markKeyValue) val (some (b.setOptions ttl)) = r at hs h1
      rcases r with ⟨s, t⟩
      simp only at hs
      subst hs
      simp at h1
  · intro h
    simp [effectiveTTL, expiryOf, h]
  · intro h hd
    simp [effectiveTTL, expiryOf, not_lt.mpr h, hd]
  · intro h hd
    simp [effectiveTTL, expiryOf, not_lt.mpr h, not_lt.mpr hd]

theorem ttl_precedence_witness :
    (Bucket.Set sampleEngine sampleBucketTTL emptyDB (ascii "k") (ascii "v") 0).1 = .nil ∧
    Data.get (Bucket.Set sampleEngine sampleBucketTTL emptyDB (ascii "k") (ascii "v") 0).2.data
      (sampleBucketTTL.udataKey (ascii "k") _markKeyValue)
        = some (Entry.mk (ascii "v") 1700000060) :=
  ⟨by decide,
   ((ttl_precedence sampleEngine sampleBucketTTL emptyDB (ascii "k") (ascii "v") 0 1).1
      (by decide)).trans (by decide)⟩

/-! ## `strconv.ParseInt` against the decimal value of a text -/

/-- The number read from decimal digits, starting from the number `n` read so far. -/
theorem digits_foldl_ge (ds : Bytes) (n : Nat) :
    n ≤ ds.foldl (fun acc c => acc * 10 + (c.toNat - 48)) n := by
  induction ds generalizing n with
  | nil => exact Nat.le_refl _
  | cons c ds ih =>
    rw [List.foldl_cons]
    exact Nat.le_trans (by omega) (ih _)

/-- On decimal digits the loop of `ParseUint` returns the number they denote when it fits in
64 bits, and the range error otherwise. -/
theorem parseUintLoop_digits (ds : Bytes) (n : Nat) (hd : ds.all isDigit = true)
    (hn : n ≤ maxUint64) :
    (ds.foldl (fun acc c => acc * 10 + (c.toNat - 48)) n ≤ maxUint64 →
      parseUintLoop ds n = (ds.foldl (fun acc c => acc * 10 + (c.toNat - 48)) n, none)) ∧
    (maxUint64 < ds.foldl (fun acc c => acc * 10 + (c.toNat - 48)) n →
      parseUintLoop ds n = (maxUint64, some .ErrRange)) := by
  induction ds generalizing n with
  | nil =>
    refine ⟨fun _ => rfl, fun h => ?_⟩
    simp only [List.foldl_nil] at h
    omega
  | cons c ds ih =>
    simp only [List.all_cons, Bool.and_eq_true] at hd
    obtain ⟨hc, hds⟩ := hd
    have hc2 : 48 ≤ c.toNat ∧ c.toNat ≤ 57 := by simpa [isDigit] using hc
    have hlt : ¬ (c.toNat - 48 ≥ 10) := by omega
    have hge := digits_foldl_ge ds (n * 10 + (c.toNat - 48))
    rw [List.foldl_cons]
    unfold parseUintLoop
    simp only [hc2, and_self, if_true, hlt, if_false]
    by_cases hcut : n ≥ parseUintCutoff
    · simp only [hcut, if_true]
      have : parseUintCutoff = 1844674407370955162 := by decide
      have hm : maxUint64 = 18446744073709551615 := rfl
      refine ⟨fun h => ?_, ?_⟩
      · omega
      · simp
    · simp only [hcut, if_false]
      have : parseUintCutoff = 1844674407370955162 := by decide
      have hm : maxUint64 = 18446744073709551615 := rfl
      by_cases hov : n * 10 + (c.toNat - 48) ≤ maxUint64
      · have hmod : (n * 10 + (c.toNat - 48)) % 18446744073709551616
            = n * 10 + (c.toNat - 48) := Nat.mod_eq_of_lt (by omega)
        rw [hmod]
        have hno : ¬ (n * 10 + (c.toNat - 48) < n * 10 ∨ n * 10 + (c.toNat - 48) > maxUint64) := by
          omega
        simp only [hno, if_false]
        exact ih _ hds hov
      · have hmod : (n * 10 + (c.toNat - 48)) % 18446744073709551616
            = n * 10 + (c.toNat - 48) - 18446744073709551616 := by omega
        rw [hmod]
        have hyes : (n * 10 + (c.toNat - 48) - 18446744073709551616 < n * 10 ∨
            n * 10 + (c.toNat - 48) - 18446744073709551616 > maxUint64) := by omega
        simp only [hyes, if_true]
        refine ⟨fun h => ?_, ?_⟩
        · omega
        · simp

/-- When a byte is not a decimal digit the loop of `ParseUint` ends with an error. -/
theorem parseUintLoop_nondigit (ds : Bytes) (n : Nat) (hd : ds.all isDigit = false) :
    (parseUintLoop ds n).2 ≠ none := by
  induction ds generalizing n with
  | nil => simp at hd
  | cons c ds ih =>
    unfold parseUintLoop
    by_cases hc : 48 ≤ c.toNat ∧ c.toNat ≤ 57
    · have hds : ds.all isDigit = false := by
        have hcd : isDigit c = true := by simpa [isDigit] using hc
        simpa [List.all_cons, hcd] using hd
      simp only [hc, and_self, if_true]
      split_ifs <;> first | exact ih _ hds | simp
    · simp only [hc, if_false]
      split_ifs <;> first | omega | simp

/-- A range error of the loop of `ParseUint` comes with the value `maxUint64`. -/
theorem parseUintLoop_range (ds : Bytes) (n : Nat)
    (h : (parseUintLoop ds n).2 = some .ErrRange) : (parseUintLoop ds n).1 = maxUint64 := by
  induction ds generalizing n with
  | nil => simp [parseUintLoop] at h
  | cons c ds ih =>
    unfold parseUintLoop at h ⊢
    dsimp only at h ⊢
    split_ifs at h ⊢ <;> first | exact ih _ h | rfl | simp at h

/-- Function `ParseUint` on a non-empty text of decimal digits. -/
theorem ParseUint_digits (s : Bytes) (hne : s ≠ []) (hd : s.all isDigit = true) :
    (digitsValue s ≤ maxUint64 → ParseUint s = (digitsValue s, none)) ∧
    (maxUint64 < digitsValue s → ParseUint s = (maxUint64, some .ErrRange)) := by
  unfold ParseUint digitsValue
  simp only [hne, if_false]
  exact parseUintLoop_digits s 0 hd (Nat.zero_le _)

/-- Function `ParseUint` on a text that is empty or has a byte that is not a decimal digit. -/
theorem ParseUint_nondigits (s : Bytes) (h : ¬ (s ≠ [] ∧ s.all isDigit = true)) :
    (ParseUint s).2 ≠ none := by
  unfold ParseUint
  by_cases hne : s = []
  · simp [hne]
  · simp only [hne, if_false]
    have hd : s.all isDigit = false := by
      cases hx : s.all isDigit with
      | true => exact absurd ⟨hne, hx⟩ h
      | false => rfl
    exact parseUintLoop_nondigit s 0 hd

theorem ParseUint_range (s : Bytes) (h : (ParseUint s).2 = some .ErrRange) :
    (ParseUint s).1 = maxUint64 := by
  unfold ParseUint at h ⊢
  by_cases hne : s = []
  · simp [hne] at h
  · simp only [hne, if_false] at h ⊢
    exact parseUintLoop_range s 0 h

/-- An error of `ParseUint` is an error of `ParseInt`. -/
theorem parseIntSigned_err (neg : Bool) (r : Nat × Option NumErr) (h : r.2 ≠ none)
    (hr : r.2 = some .ErrRange → r.1 = maxUint64) : (parseIntSigned neg r).2 ≠ none := by
  rcases r with ⟨u, e⟩
  cases e with
  | none => exact absurd rfl h
  | some e =>
    cases e with
    | ErrSyntax => simp [parseIntSigned]
    | ErrRange =>
      have hu : u = maxUint64 := hr rfl
      subst hu
      cases neg <;> simp [parseIntSigned, maxUint64]

/-- The range check and the sign of `ParseInt` on a number that `ParseUint` has read. -/
theorem parseIntSigned_ok (neg : Bool) (u : Nat) :
    (isInt64 (if neg then -(u : Int) else (u : Int)) →
      parseIntSigned neg (u, none) = ((if neg then -(u : Int) else (u : Int)), none)) ∧
    (¬ isInt64 (if neg then -(u : Int) else (u : Int)) →
      (parseIntSigned neg (u, none)).2 ≠ none) := by
  cases neg with
  | false =>
    simp only [Bool.false_eq_true, if_false, isInt64, parseIntSigned]
    refine ⟨fun h => ?_, fun h => ?_⟩
    · have h1 : ¬ ((u : Nat) ≥ 9223372036854775808) := by omega
      simp only [h1, and_false, if_false, true_and, false_and]
      simp only [reduceCtorEq, if_false, wrapInt64, Prod.mk.injEq, and_true]
      omega
    · have h1 : (u : Nat) ≥ 9223372036854775808 := by omega
      simp [h1]
  | true =>
    simp only [if_true, isInt64, parseIntSigned]
    refine ⟨fun h => ?_, fun h => ?_⟩
    · have h1 : ¬ ((u : Nat) > 9223372036854775808) := by omega
      simp only [h1, and_false, if_false, Bool.true_eq_false, false_and]
      simp only [reduceCtorEq, if_false, wrapInt64, Prod.mk.injEq, and_true]
      omega
    · have h1 : (u : Nat) > 9223372036854775808 := by omega
      simp [h1]

/-- Function `ParseInt` after the sign: on one or more decimal digits it yields the signed number when
that is in the signed 64-bit range and an error when it is not; on any other text an error. -/
theorem parseIntSigned_ParseUint (neg : Bool) (s : Bytes) :
    (s ≠ [] ∧ s.all isDigit = true →
      (isInt64 (if neg then -(digitsValue s : Int) else (digitsValue s : Int)) →
        parseIntSigned neg (ParseUint s)
          = ((if neg then -(digitsValue s : Int) else (digitsValue s : Int)), none)) ∧
      (¬ isInt64 (if neg then -(digitsValue s : Int) else (digitsValue s : Int)) →
        (parseIntSigned neg (ParseUint s)).2 ≠ none)) ∧
    (¬ (s ≠ [] ∧ s.all isDigit = true) → (parseIntSigned neg (ParseUint s)).2 ≠ none) := by
  refine ⟨fun h => ?_, fun h => ?_⟩
  · obtain ⟨h1, h2⟩ := ParseUint_digits s h.1 h.2
    by_cases hle : digitsValue s ≤ maxUint64
    · rw [h1 hle]
      exact parseIntSigned_ok neg (digitsValue s)
    · have hgt : maxUint64 < digitsValue s := by omega
      have hm : maxUint64 = 18446744073709551615 := rfl
      have hnot : ¬ isInt64 (if neg then -(digitsValue s : Int) else (digitsValue s : Int)) := by
        unfold isInt64
        cases neg
        · simp only [Bool.false_eq_true, if_false]
          omega
        · simp only [if_true]
          omega
      refine ⟨fun hi => absurd hi hnot, fun _ => ?_⟩
      rw [h2 hgt]
      exact parseIntSigned_err neg _ (by simp) (fun _ => rfl)
  · exact parseIntSigned_err neg _ (ParseUint_nondigits s h) (ParseUint_range s)

/-- Function `strconv.ParseInt` against the decimal value of a text: a text denoting an integer of the
signed 64-bit range parses to it without error; every other text gives an error. -/
theorem ParseInt_spec (v : Bytes) :
    (∀ n : Int, decimalValue v = some n → isInt64 n → ParseInt v = (n, none)) ∧
    (∀ n : Int, decimalValue v = some n → ¬ isInt64 n → (ParseInt v).2 ≠ none) ∧
    (decimalValue v = none → (ParseInt v).2 ≠ none) := by
  cases v with
  | nil => simp [decimalValue, ParseInt]
  | cons c rest =>
    by_cases h45 : c = 45
    · subst h45
      have key := parseIntSigned_ParseUint true rest
      have e1 : ParseInt (45 :: rest) = parseIntSigned true (ParseUint rest) := by
        simp [ParseInt]
      rw [e1]
      by_cases hd : rest ≠ [] ∧ rest.all isDigit = true
      · have e2 : decimalValue (45 :: rest) = some (-(digitsValue rest : Int)) := by
          simp [decimalValue, hd.1, hd.2]
        rw [e2]
        have k := key.1 hd
        simp only [if_true] at k
        refine ⟨?_, ?_, ?_⟩
        · intro n hn hi
          simp only [Option.some.injEq] at hn
          subst hn
          exact k.1 hi
        · intro n hn hi
          simp only [Option.some.injEq] at hn
          subst hn
          exact k.2 hi
        · intro hn
          simp at hn
      · have e2 : decimalValue (45 :: rest) = none := by
          simp only [decimalValue, if_true, hd, if_false]
        rw [e2]
        refine ⟨?_, ?_, ?_⟩
        · intro n hn
          simp at hn
        · intro n hn
          simp at hn
        · intro _
          exact key.2 hd
    · by_cases h43 : c = 43
      · subst h43
        have key := parseIntSigned_ParseUint false rest
        have e1 : ParseInt (43 :: rest) = parseIntSigned false (ParseUint rest) := by
          simp [ParseInt]
        rw [e1]
        by_cases hd : rest ≠ [] ∧ rest.all isDigit = true
        · have e2 : decimalValue (43 :: rest) = some (digitsValue rest : Int) := by
            simp [decimalValue, hd.1, hd.2]
          rw [e2]
          have k := key.1 hd
          simp only [Bool.false_eq_true, if_false] at k
          refine ⟨?_, ?_, ?_⟩
          · intro n hn hi
            simp only [Option.some.injEq] at hn
            subst hn
            exact k.1 hi
          · intro n hn hi
            simp only [Option.some.injEq] at hn
            subst hn
            exact k.2 hi
          · intro hn
            simp at hn
        · have e2 : decimalValue (43 :: rest) = none := by
            simp only [decimalValue, hd, if_false]
            simp
          rw [e2]
          refine ⟨?_, ?_, ?_⟩
          · intro n hn
            simp at hn
          · intro n hn
            simp at hn
          · intro _
            exact key.2 hd
      · have key := parseIntSigned_ParseUint false (c :: rest)
        have e1 : ParseInt (c :: rest) = parseIntSigned false (ParseUint (c :: rest)) := by
          simp [ParseInt, h45, h43]
        rw [e1]
        by_cases hd : (c :: rest).all isDigit = true
        · have e2 : decimalValue (c :: rest) = some (digitsValue (c :: rest) : Int) := by
            simp only [decimalValue, h45, h43, if_false, hd, if_true]
          rw [e2]
          have k := key.1 ⟨by simp, hd⟩
          simp only [Bool.false_eq_true, if_false] at k
          refine ⟨?_, ?_, ?_⟩
          · intro n hn hi
            simp only [Option.some.injEq] at hn
            subst hn
            exact k.1 hi
          · intro n hn hi
            simp only [Option.some.injEq] at hn
            subst hn
            exact k.2 hi
          · intro hn
            simp at hn
        · have e2 : decimalValue (c :: rest) = none := by
            simp only [decimalValue, h45, h43, if_false, hd]
            simp
          rw [e2]
          refine ⟨?_, ?_, ?_⟩
          · intro n hn
            simp at hn
          · intro n hn
            simp at hn
          · intro _
            exact key.2 (fun h => hd h.2)

/-! ## `strconv.FormatInt` and its decimal value -/

theorem digit_byte_toNat (d : Nat) (hd : d < 10) : ((48 + d).toUInt8).toNat = 48 + d := by
  exact UInt8.toNat_ofNat_of_lt (by simp only [UInt8.size]; omega)

/-- The digits `decDigits` produces are decimal digits, at least one, and denote the number. -/
theorem decDigits_spec (fuel n : Nat) (h : n < 10 ^ (fuel + 1)) :
    decDigits (fuel + 1) n ≠ [] ∧ (∀ d ∈ decDigits (fuel + 1) n, d < 10) ∧
    (decDigits (fuel + 1) n).foldl (fun acc d => acc * 10 + d) 0 = n := by
  induction fuel generalizing n with
  | zero =>
    have hn : n < 10 := by simpa using h
    simp [decDigits, hn]
  | succ f ih =>
    unfold decDigits
    by_cases hn : n < 10
    · simp [hn]
    · simp only [hn, if_false]
      have hlt : n / 10 < 10 ^ (f + 1) := by
        rw [Nat.div_lt_iff_lt_mul (by decide)]
        calc n < 10 ^ (f + 1 + 1) := h
          _ = 10 ^ (f + 1) * 10 := by rw [Nat.pow_succ]
      obtain ⟨h1, h2, h3⟩ := ih (n / 10) hlt
      refine ⟨by simp, ?_, ?_⟩
      · intro d hd
        rcases List.mem_append.mp hd with hd | hd
        · exact h2 d hd
        · simp only [List.mem_singleton] at hd
          omega
      · rw [List.foldl_append, h3]
        simp only [List.foldl_cons, List.foldl_nil]
        omega

theorem digitsValue_map (ds : List Nat) (hds : ∀ d ∈ ds, d < 10) (n : Nat) :
    (ds.map (fun d => (48 + d).toUInt8)).foldl (fun acc c => acc * 10 + (c.toNat - 48)) n
      = ds.foldl (fun acc d => acc * 10 + d) n := by
  induction ds generalizing n with
  | nil => rfl
  | cons d ds ih =>
    have hd := hds d (List.mem_cons_self _ _)
    simp only [List.map_cons, List.foldl_cons]
    rw [digit_byte_toNat d hd, ih (fun x hx => hds x (List.mem_cons_of_mem _ hx))]
    simp

theorem all_isDigit_map (ds : List Nat) (hds : ∀ d ∈ ds, d < 10) :
    (ds.map (fun d => (48 + d).toUInt8)).all isDigit = true := by
  simp only [List.all_eq_true, List.mem_map, forall_exists_index, and_imp]
  intro c d hd hc
  subst hc
  have := digit_byte_toNat d (hds d hd)
  simp only [isDigit, this, Bool.and_eq_true, decide_eq_true_eq]
  have := hds d hd
  omega

/-- The text `FormatUint` produces is one or more decimal digits and denotes the number. -/
theorem FormatUint_spec (n : Nat) (h : n < 10 ^ 20) :
    FormatUint n ≠ [] ∧ (FormatUint n).all isDigit = true ∧ digitsValue (FormatUint n) = n := by
  obtain ⟨h1, h2, h3⟩ := decDigits_spec 19 n h
  refine ⟨?_, all_isDigit_map _ h2, ?_⟩
  · simpa [FormatUint] using h1
  · unfold digitsValue FormatUint
    rw [digitsValue_map _ h2, h3]

/-- A text of one or more decimal digits does not start with a sign. -/
theorem decimalValue_digits (s : Bytes) (hne : s ≠ []) (hd : s.all isDigit = true) :
    decimalValue s = some (digitsValue s : Int) := by
  cases s with
  | nil => exact absurd rfl hne
  | cons c rest =>
    have hc : isDigit c = true := by
      simp only [List.all_cons, Bool.and_eq_true] at hd
      exact hd.1
    have hc2 : 48 ≤ c.toNat ∧ c.toNat ≤ 57 := by simpa [isDigit] using hc
    have h45 : c ≠ 45 := by
      intro h
      subst h
      revert hc2
      decide
    have h43 : c ≠ 43 := by
      intro h
      subst h
      revert hc2
      decide
    simp only [decimalValue, h45, h43, if_false, hd, if_true]

/-- Parsing is the inverse of formatting: the text `FormatInt` gives a signed 64-bit integer is
a base-10 text that denotes it. -/
theorem decimalValue_FormatInt (n : Int) (h : isInt64 n) : decimalValue (FormatInt n) = some n := by
  unfold isInt64 at h
  unfold FormatInt
  by_cases hneg : n < 0
  · simp only [hneg, if_true]
    obtain ⟨h1, h2, h3⟩ := FormatUint_spec (-n).toNat (by omega)
    simp only [decimalValue, if_true, h1, h2, ne_eq, not_false_eq_true, and_self, h3]
    congr 1
    omega
  · simp only [hneg, if_false]
    obtain ⟨h1, h2, h3⟩ := FormatUint_spec n.toNat (by omega)
    rw [decimalValue_digits _ h1 h2, h3]
    congr 1
    omega

/-- Function `ParseInt` reads back what `FormatInt` writes. -/
theorem ParseInt_FormatInt (n : Int) (h : isInt64 n) : ParseInt (FormatInt n) = (n, none) :=
  (ParseInt_spec (FormatInt n)).1 n (decimalValue_FormatInt n h) h

/-! ## The increment against its reference definition (C4, C10) -/

/-- What `txn.Get` returns, on an engine whose reads do not fail, against what the transaction
sees under the key. -/
theorem Txn.Get_view (E : Engine) (t : Txn) (key : Bytes) (hg : E.getFault t key = none) :
    (t.view E key = none ∧ t.Get E key = .error .ErrKeyNotFound) ∨
    (∃ item : Entry, t.Get E key = .ok item ∧ t.view E key = some item.Value) := by
  unfold Txn.view Txn.Get
  simp only [hg]
  cases hp : pendingGet t.pending key with
  | some w =>
    cases w with
    | none => exact Or.inl ⟨rfl, rfl⟩
    | some e =>
      by_cases hx : e.expired E = true
      · exact Or.inl ⟨by simp [Option.filter, hx], by simp [hx]⟩
      · exact Or.inr ⟨e, by simp [hx], by simp [Option.filter, hx]⟩
  | none =>
    cases hd : Data.get t.snapshot key with
    | none => exact Or.inl ⟨rfl, rfl⟩
    | some e =>
      by_cases hx : e.expired E = true
      · exact Or.inl ⟨by simp [Option.filter, hx], by simp [hx]⟩
      · exact Or.inr ⟨e, by simp [hx], by simp [Option.filter, hx]⟩

theorem wrapInt64_of_isInt64 (n : Int) (h : isInt64 n) : wrapInt64 n = n := by
  unfold isInt64 at h
  unfold wrapInt64
  omega

theorem isInt64_wrapInt64 (n : Int) : isInt64 (wrapInt64 n) := by
  unfold isInt64 wrapInt64
  omega

/-- Function `Store.Incr` in a write transaction, on an engine on which no store call fails, is the
reference increment with the sum taken in wrapping 64-bit arithmetic. -/
theorem StoreIncr_refines (E : Engine) (hE : E.NoFaults) (t : Txn) (hu : t.update = true)
    (key : Bytes) (delta : Int) (hδ : isInt64 delta) (opts : Option SetOptions) :
    Store.Incr E t key delta opts
      = incrOutcome E t key (ttlOf opts) (incrSpecWrap (t.view E key) delta) := by
  have hwb : ∀ num : Int, incrWriteBack E t key num (ttlOf opts) = ((num, .nil),
      { t with pending := (key, some (Entry.mk (FormatInt num)
        (if ttlOf opts > 0 then expiresAt E (ttlOf opts) else 0))) :: t.pending }) :=
    fun num => incrWriteBack_ok E t key num _ (incrWriteBack_noFaults E hE t hu key num _)
  rcases Txn.Get_view E t key (hE.1 t key) with ⟨hv, hget⟩ | ⟨item, hget, hv⟩
  · rw [Store.Incr_absent E t key delta opts hget, hv, hwb]
    simp [incrSpecWrap, incrOutcome, wrapInt64_of_isInt64 delta hδ]
  · rw [Store.Incr_present E t key delta opts item hget, hv]
    obtain ⟨h1, h2, h3⟩ := ParseInt_spec item.Value
    cases hdv : decimalValue item.Value with
    | none =>
      have := h3 hdv
      simp [incrSpecWrap, incrOutcome, hdv, this]
    | some n =>
      by_cases hi : isInt64 n
      · have hp := h1 n hdv hi
        simp only [hp, ne_eq, not_true_eq_false, if_false, hwb]
        simp [incrSpecWrap, incrOutcome, hdv, hi]
      · have := h2 n hdv hi
        simp [incrSpecWrap, incrOutcome, hdv, hi, this]

/-- Function `Bucket.Incr` on an engine on which no store call fails: what it returns and the entries
it leaves committed, for the outcome `r` of the reference increment on the stored value. -/
theorem BucketIncr_refines (E : Engine) (hE : E.NoFaults) (b : Bucket) (db : DB) (key : Bytes)
    (delta : Int) (hδ : isInt64 delta) (ttl : Int) :
    (Bucket.Incr E b db key delta ttl).1
      = incrReturn (incrSpecWrap (Data.live E db.data (b.udataKey key _markKeyValue)) delta) ∧
    (Bucket.Incr E b db key delta ttl).2.data
      = incrCommitted E b db.data key ttl
          (incrSpecWrap (Data.live E db.data (b.udataKey key _markKeyValue)) delta) := by
  have hview : (Store.NewTransaction db true).1.view E (b.udataKey key _markKeyValue)
      = Data.live E db.data (b.udataKey key _markKeyValue) := rfl
  have href := StoreIncr_refines E hE (Store.NewTransaction db true).1 rfl
    (b.udataKey key _markKeyValue) delta hδ (some (b.setOptions ttl))
  rw [hview] at href
  have hx := setOptions_expiry E b ttl
  unfold Bucket.Incr WithTxn
  dsimp only
  rw [href]
  cases hr : incrSpecWrap (Data.live E db.data (b.udataKey key _markKeyValue)) delta with
  | error e => simp [incrOutcome, incrReturn, incrCommitted, Store.Discard, Store.NewTransaction]
  | ok p =>
    rcases p with ⟨n, text⟩
    simp only [incrOutcome, incrReturn, incrCommitted, Store.Commit, hE.2.2.2, Store.Discard,
      ttlOf, hx]
    simp [Store.NewTransaction, commitWrites, Data.apply, Bucket.udataKey]

/-- The reference increment with the wrapping sum is the reference increment of the
specification whenever the sum is in the signed 64-bit range. -/
theorem incrSpecWrap_eq_incrSpec (stored : Option Bytes) (delta : Int)
    (h : ∀ v n, stored = some v → decimalValue v = some n → isInt64 (n + delta)) :
    incrSpecWrap stored delta = incrSpec stored delta := by
  cases stored with
  | none => rfl
  | some v =>
    cases hd : decimalValue v with
    | none => simp only [incrSpecWrap, incrSpec, hd]
    | some n =>
      have := wrapInt64_of_isInt64 _ (h v n rfl hd)
      simp only [incrSpecWrap, incrSpec, hd, this]

/-- C4 (amended). On an engine on which no store call fails, `Store.Incr` in a write
transaction, and `Bucket.Incr` over it, equal the reference definition in which the sum is
taken in wrapping signed 64-bit arithmetic: an absent key gives `delta` and stores its decimal
text; the base-10 text of a signed 64-bit integer `n` gives `n + delta` wrapped to 64 bits
(which is `n + delta` whenever that sum is in the signed 64-bit range) and stores its decimal
text; any other text fails with `ErrInvalidNum` and leaves the stored value. -/
theorem Incr_refines_wrapping (E : Engine) (hE : E.NoFaults) (b : Bucket) (db : DB) (t : Txn)
    (hu : t.update = true) (key : Bytes) (delta : Int) (hδ : isInt64 delta)
    (opts : Option SetOptions) (ttl : Int) :
    Store.Incr E t key delta opts
      = incrOutcome E t key (ttlOf opts) (incrSpecWrap (t.view E key) delta) ∧
    (Bucket.Incr E b db key delta ttl).1
      = incrReturn (incrSpecWrap (Data.live E db.data (b.udataKey key _markKeyValue)) delta) ∧
    (Bucket.Incr E b db key delta ttl).2.data
      = incrCommitted E b db.data key ttl
          (incrSpecWrap (Data.live E db.data (b.udataKey key _markKeyValue)) delta) ∧
    (∀ stored : Option Bytes,
      (∀ v n, stored = some v → decimalValue v = some n → isInt64 (n + delta)) →
      incrSpecWrap stored delta = incrSpec stored delta) ∧
    (∀ n : Int, isInt64 n → incrSpecWrap (some (FormatInt n)) delta
      = .ok (wrapInt64 (n + delta), FormatInt (wrapInt64 (n + delta)))) ∧
    (∀ v : Bytes, decimalValue v = none → incrSpecWrap (some v) delta = .error .ErrInvalidNum) := by
  refine ⟨StoreIncr_refines E hE t hu key delta hδ opts,
    (BucketIncr_refines E hE b db key delta hδ ttl).1,
    (BucketIncr_refines E hE b db key delta hδ ttl).2,
    fun stored h => incrSpecWrap_eq_incrSpec stored delta h, ?_, ?_⟩
  · intro n hn
    simp [incrSpecWrap, decimalValue_FormatInt n hn, hn]
  · intro v hv
    simp [incrSpecWrap, hv]

theorem sampleEngine_noFaults : sampleEngine.NoFaults :=
  ⟨fun _ _ => rfl, fun _ _ _ => rfl, fun _ _ => rfl, fun _ => rfl⟩

theorem Incr_refines_wrapping_witness :
    sampleEngine.NoFaults ∧ numbersTxn.update = true ∧ isInt64 1 ∧
    Store.Incr sampleEngine numbersTxn (ascii "n") 1 none
      = ((42, .nil), { numbersTxn with pending :=
          [(ascii "n", some { Value := ascii "42", ExpiresAt := 0 })] }) :=
  ⟨sampleEngine_noFaults, rfl, by decide,
   (Incr_refines_wrapping sampleEngine sampleEngine_noFaults sampleBucket emptyDB numbersTxn rfl
      (ascii "n") 1 (by decide) none 0).1.trans (by decide)⟩

/-- C4, as stated, fails at an overflow: with `9223372036854775807` stored and `delta = 1` the
reference definition gives `9223372036854775808`, while `Store.Incr` returns
`-9223372036854775808` and stores its text. -/
theorem Incr_spec_counterexample :
    incrSpec (maxNumTxn.view sampleEngine (ascii "n")) 1
      = .ok (9223372036854775808, ascii "9223372036854775808") ∧
    Store.Incr sampleEngine maxNumTxn (ascii "n") 1 none
      = ((-9223372036854775808, .nil), { maxNumTxn with pending :=
          [(ascii "n", some { Value := ascii "-9223372036854775808", ExpiresAt := 0 })] }) ∧
    Store.Incr sampleEngine maxNumTxn (ascii "n") 1 none
      ≠ incrOutcome sampleEngine maxNumTxn (ascii "n") (ttlOf none)
          (incrSpec (maxNumTxn.view sampleEngine (ascii "n")) 1) := by
  refine ⟨by decide, by decide, by decide⟩

/-- C10 (amended). `Store.Incr` treats a missing key as 0, but not an empty stored value: for
every key under which the transaction sees the empty byte string and every delta, `Store.Incr`
fails with `ErrInvalidNum` and writes nothing; for a missing key it succeeds, returns `delta`
and stores the decimal text of `delta`. -/
theorem Incr_empty_value_invalid (E : Engine) (t : Txn) (key : Bytes) (delta : Int)
    (opts : Option SetOptions) :
    (E.getFault t key = none → t.view E key = some [] →
      Store.Incr E t key delta opts = ((0, .err .ErrInvalidNum), t)) ∧
    (E.NoFaults → t.update = true → isInt64 delta → t.view E key = none →
      Store.Incr E t key delta opts = ((delta, .nil), { t with pending :=
        (key, some (Entry.mk (FormatInt delta)
          (if ttlOf opts > 0 then expiresAt E (ttlOf opts) else 0))) :: t.pending })) := by
  refine ⟨fun hg hv => ?_, fun hE hu hδ hv => ?_⟩
  · rcases Txn.Get_view E t key hg with ⟨hv2, _⟩ | ⟨item, hget, hv2⟩
    · rw [hv] at hv2
      simp at hv2
    · rw [hv, Option.some.injEq] at hv2
      rw [Store.Incr_present E t key delta opts item hget, ← hv2]
      simp [ParseInt]
  · rw [StoreIncr_refines E hE t hu key delta hδ opts, hv]
    simp [incrSpecWrap, incrOutcome]

theorem Incr_empty_value_invalid_witness :
    sampleEngine.getFault numbersTxn (ascii "e") = none ∧
    numbersTxn.view sampleEngine (ascii "e") = some [] ∧
    Store.Incr sampleEngine numbersTxn (ascii "e") 5 none
      = ((0, .err .ErrInvalidNum), numbersTxn) :=
  ⟨rfl, by decide,
   (Incr_empty_value_invalid sampleEngine numbersTxn (ascii "e") 5 none).1 rfl (by decide)⟩

/-- C10, as stated, fails: with the empty byte string stored under the key, `Store.Incr` by 5
does not succeed with 5; it returns `ErrInvalidNum` and writes nothing. -/
theorem Incr_empty_value_counterexample :
    numbersTxn.view sampleEngine (ascii "e") = some [] ∧
    (Store.Incr sampleEngine numbersTxn (ascii "e") 5 none).1 = (0, .err .ErrInvalidNum) ∧
    (Store.Incr sampleEngine numbersTxn (ascii "e") 5 none).1 ≠ (5, .nil) ∧
    (Store.Incr sampleEngine numbersTxn (ascii "e") 5 none).2.pending = [] := by
  refine ⟨by decide, by decide, by decide, by decide⟩

/-! ## The increment handler drops the sign (C7) -/

/-- The increment `incrKeyValue` hands to `Bucket.Incr` is the one of `incrKeyValueIncrement`:
with it the handler is `Bucket.Incr` followed by the response. -/
theorem incrKeyValue_increment (E : Engine) (b : Bucket) (db : DB) (w : Response) (r : Request)
    (body : Bytes) (inc : Int) (hb : r.Body = .ok body)
    (hi : incrKeyValueIncrement body = some inc) :
    (incrKeyValue E b db w r).2.2 = (b.Incr E db r.key inc (seconds r.ttl)).2 := by
  unfold incrKeyValueIncrement at hi
  unfold incrKeyValue
  rw [hb]
  dsimp only at hi ⊢
  by_cases h1 : body.length < 2 ∨ (body.headD 0 ≠ 45 ∧ body.headD 0 ≠ 43)
  · rw [if_pos h1] at hi
    cases hi
  · rw [if_neg h1] at hi ⊢
    by_cases h2 : (ParseInt (body.drop 1)).2 ≠ none
    · rw [if_pos h2] at hi
      cases hi
    · rw [if_neg h2] at hi ⊢
      injection hi with hi
      subst hi
      cases hs : (b.Incr E db r.key (ParseInt (List.drop 1 body)).1 (seconds r.ttl)).1.2 with
      | nil => rfl
      | err e => by_cases he : e = .ErrInvalidNum <;> simp [he]
      | panic m => rfl

/-- Whatever the sign character of the body, the increment is the number after it. -/
theorem incrKeyValueIncrement_sign (rest : Bytes) :
    incrKeyValueIncrement (45 :: rest) = incrKeyValueIncrement (43 :: rest) := by
  simp [incrKeyValueIncrement]

/-- C7, at the body `-5` with `10` stored under the key: the handler hands `+5` to
`Bucket.Incr` (not `-5`), the stored number becomes `15` (not `5`) and the response body is
`15`. -/
theorem incrKeyValue_minus_five :
    incrKeyValueIncrement (ascii "-5") = some 5 ∧
    (incrKeyValue sampleEngine sampleBucket tenDB [] (sampleRequest "-5")).1 = .ret 0 none ∧
    (incrKeyValue sampleEngine sampleBucket tenDB [] (sampleRequest "-5")).2.1
      = [.Write (ascii "15")] ∧
    (incrKeyValue sampleEngine sampleBucket tenDB [] (sampleRequest "-5")).2.2.data
      = [(sampleBucket.udataKey (ascii "n") _markKeyValue,
          { Value := ascii "15", ExpiresAt := 0 })] ∧
    (incrKeyValue sampleEngine sampleBucket tenDB [] (sampleRequest "-5")).2.2
      = (sampleBucket.Incr sampleEngine tenDB (ascii "n") 5 0).2 := by
  refine ⟨by decide, by decide, by decide, by decide, by decide⟩

/-! ## The batch handler and a null descriptor (C8) -/

/-- C8, at the body `{"txn":[null]}`: the null descriptor is dereferenced, the handler panics
and writes no 400 response (neither does it when a well-shaped descriptor comes first);
`ApplyTxn` is not reached and the store is as it was. -/
theorem executeTxn_null_descriptor :
    executeTxn sampleEngine sampleUnmarshal sampleBucket tenDB []
        (sampleRequest "\x7b\"txn\":[null]\x7d")
      = (.panic "nil pointer dereference", [], tenDB) ∧
    executeTxn sampleEngine sampleUnmarshal sampleBucket tenDB []
        (sampleRequest
          "\x7b\"txn\":[\x7b\"set\":\"a\",\"value\":\"1\",\"ttl\":0\x7d,null]\x7d")
      = (.panic "nil pointer dereference", [], tenDB) := by
  refine ⟨by decide, by decide⟩

/-! ## The exit protocol of `DoScript` (C3, C9) -/

theorem Store.setEntry_id (E : Engine) (t : Txn) (key val : Bytes) (ttl : Int) :
    (Store.setEntry E t key val ttl).2.id = t.id := by
  unfold Store.setEntry Txn.SetEntry
  dsimp only
  split_ifs <;> (try split) <;> rfl

theorem Store.Set_id (E : Engine) (t : Txn) (key val : Bytes) (opts : Option SetOptions) :
    (Store.Set E t key val opts).2.id = t.id :=
  Store.setEntry_id E t key val _

theorem Store.Delete_id (E : Engine) (t : Txn) (key : Bytes) :
    (Store.Delete E t key).2.id = t.id := by
  unfold Store.Delete Txn.Delete
  dsimp only
  split_ifs <;> (try split) <;> rfl

theorem Store.Incr_id (E : Engine) (t : Txn) (key : Bytes) (increment : Int)
    (opts : Option SetOptions) : (Store.Incr E t key increment opts).2.id = t.id := by
  have hwb : ∀ num ttl, (incrWriteBack E t key num ttl).2.id = t.id := by
    intro num ttl
    unfold incrWriteBack
    split <;> exact Store.setEntry_id E t key _ _
  cases hg : t.Get E key with
  | ok item =>
    rw [Store.Incr_present E t key increment opts item hg]
    split_ifs
    · rfl
    · exact hwb _ _
  | error e =>
    by_cases he : e = .ErrKeyNotFound
    · subst he
      rw [Store.Incr_absent E t key increment opts hg]
      exact hwb _ _
    · rw [Store.Incr_getFault E t key increment opts e hg he]

/-- A run of a script stays in the transaction it was given. -/
theorem Script.run_txn_id (E : Engine) (b : Bucket) (s : Script) (env : LuaEnv) :
    (s.run E b env).2.txn.id = env.txn.id := by
  induction s generalizing env with
  | done => rfl
  | error obj => rfl
  | abort msg => rfl
  | exit code => rfl
  | redirect url code => rfl
  | say msg next ih => exact ih _
  | print msg next ih => exact ih _
  | get key next ih =>
    unfold Script.run
    dsimp only
    split
    · exact ih _ _
    · split_ifs
      · exact ih _ _
      · exact ih _ _
  | delete key next ih =>
    unfold Script.run
    exact (ih _ _).trans (Store.Delete_id E _ _)
  | set key val ttl next ih =>
    unfold Script.run
    exact (ih _ _).trans (Store.Set_id E _ _ _ _)
  | incr key increment ttl next ih =>
    unfold Script.run
    exact (ih _ _).trans (Store.Incr_id E _ _ _ _)
  | update f next ih => exact ih _

/-- Loading a script leaves the committed entries as they are. -/
theorem loadScript_data (E : Engine) (b : Bucket) (db : DB) (name : Bytes) :
    (b.loadScript E db name).2.data = db.data := by
  unfold Bucket.loadScript WithTxn
  dsimp only
  cases hg : Store.Get E (Store.NewTransaction db false).1 (b.udataKey name _markScripts) with
  | error e => rfl
  | ok v =>
    dsimp only
    unfold Store.Commit
    cases hc : E.commitFault (Store.NewTransaction db false).1 with
    | some e => rfl
    | none => rfl

/-- Whatever a run that does not complete ends with, `DoScript` only discards the transaction:
the store is the one after the transaction was opened, with the `Discard` logged. -/
theorem DoScript_fault_store (E : Engine) (interp : Bytes → Script) (b : Bucket) (db : DB)
    (w : Response) (r : Request) (name : Bytes)
    (hload : (b.loadScript E db name).1.2 = .nil)
    (hrun : (scriptRun E interp b db r name).1 ≠ .nil) :
    (b.DoScript E interp db w r name).2.2
      = Store.Discard (Store.NewTransaction (b.loadScript E db name).2 true).2
          (scriptRun E interp b db r name).2.txn := by
  unfold scriptRun at hrun ⊢
  unfold Bucket.DoScript
  dsimp only
  rw [hload]
  dsimp only
  generalize (interp (b.loadScript E db name).1.1).run E b
    { txn := (Store.NewTransaction (b.loadScript E db name).2 true).1, buf := [],
      mod := mkLua r } = rr at hrun ⊢
  rcases rr with ⟨res, env⟩
  cases res with
  | nil => exact absurd rfl hrun
  | other msg => rfl
  | apiError obj =>
    dsimp only
    repeat' split
    all_goals rfl

/-- When the run completes, `DoScript` commits the transaction and then discards it; when the
commit succeeds, what it returns and writes is what the end of `DoScript` returns and writes. -/
theorem DoScript_done_store (E : Engine) (interp : Bytes → Script) (b : Bucket) (db : DB)
    (w : Response) (r : Request) (name : Bytes)
    (hload : (b.loadScript E db name).1.2 = .nil)
    (hrun : (scriptRun E interp b db r name).1 = .nil) :
    (b.DoScript E interp db w r name).2.2
      = Store.Discard
          (Store.Commit E (Store.NewTransaction (b.loadScript E db name).2 true).2
            (scriptRun E interp b db r name).2.txn).2
          (scriptRun E interp b db r name).2.txn ∧
    (E.commitFault (scriptRun E interp b db r name).2.txn = none →
      (b.DoScript E interp db w r name).1
        = (finishScript (scriptRun E interp b db r name).2.mod
            (scriptRun E interp b db r name).2.buf 0 w).1 ∧
      (b.DoScript E interp db w r name).2.1
        = (finishScript (scriptRun E interp b db r name).2.mod
            (scriptRun E interp b db r name).2.buf 0 w).2) := by
  unfold scriptRun at hrun ⊢
  unfold Bucket.DoScript
  dsimp only
  rw [hload]
  dsimp only
  generalize (interp (b.loadScript E db name).1.1).run E b
    { txn := (Store.NewTransaction (b.loadScript E db name).2 true).1, buf := [],
      mod := mkLua r } = rr at hrun ⊢
  rcases rr with ⟨res, env⟩
  dsimp only at hrun
  subst hrun
  dsimp only
  refine ⟨?_, fun hc => ?_⟩
  · split <;> rfl
  · simp [Store.Commit, hc]

theorem responseStatus_append (a b : Response) :
    responseStatus (a ++ b) = match responseStatus a with
      | some code => some code
      | none => responseStatus b := by
  induction a with
  | nil => rfl
  | cons c a ih =>
    cases c with
    | SetHeader k v => simpa [responseStatus] using ih
    | WriteHeader code => rfl
    | Write body => rfl
    | Redirect url code => rfl
    | Error e code => rfl

/-- Setting the headers of a script gives the response no status. -/
theorem responseStatus_scriptHeaders (mod : LFields) :
    responseStatus (scriptHeaders mod) = none := by
  have key : ∀ l : List (LKey × LValue),
      responseStatus (l.filterMap (fun kv =>
        match kv.1, kv.2 with
        | .str k, .LString v => some (RespCall.SetHeader k v)
        | _, _ => none)) = none := by
    intro l
    induction l with
    | nil => rfl
    | cons kv l ih =>
      rcases kv with ⟨k, v⟩
      cases k with
      | int i => simpa [List.filterMap_cons] using ih
      | str key =>
        cases v <;> simpa [List.filterMap_cons, responseStatus] using ih
  unfold scriptHeaders
  split
  · exact key _
  · rfl

/-- The end of `DoScript` for an exit code that `net/http` accepts: the headers, the code and
the buffer are written. -/
theorem finishScript_exit_valid (mod : LFields) (buf : Bytes) (code : Int) (w : Response)
    (h1 : 100 ≤ code) (h2 : code ≤ 999) :
    finishScript mod buf code w
      = (.nil, w ++ scriptHeaders mod ++ [.WriteHeader code, .Write buf]) := by
  have hpos : code > 0 := by omega
  have hv : validStatusCode code = true := by simp [validStatusCode, h1, h2]
  unfold finishScript scriptHeaders
  simp only [hpos, if_true, writeHeaderPanics, hv, Bool.not_true, Bool.and_false,
    Bool.false_eq_true, if_false]
  cases mod.RawGetString "header" <;> simp

/-- The end of `DoScript` without an exit code, for a `status` field that is a number
`net/http` accepts: the headers, that status and the buffer are written. -/
theorem finishScript_status_valid (mod : LFields) (buf : Bytes) (code s : Int) (w : Response)
    (hc : code ≤ 0) (hs : mod.RawGetString "status" = .LNumber s)
    (h1 : 100 ≤ s) (h2 : s ≤ 999) :
    finishScript mod buf code w
      = (.nil, w ++ scriptHeaders mod ++ [.WriteHeader s, .Write buf]) := by
  have hpos : ¬ code > 0 := by omega
  have hv : validStatusCode s = true := by simp [validStatusCode, h1, h2]
  unfold finishScript scriptHeaders
  simp only [hpos, if_false, hs, writeHeaderPanics, hv, Bool.not_true, Bool.and_false,
    Bool.false_eq_true]
  cases mod.RawGetString "header" <;> simp

/-- The error object of `exit(code)` carries the reason `exit` and the code as payload. -/
theorem safeExit_exit_fields (code : Int) :
    ∃ tb : LFields, safeExit "exit" (some (.LNumber code)) = .LTable tb ∧
      tb.RawGetString _kvdbExitReason = .LString "exit" ∧
      tb.RawGetString _kvdbExitPayload = .LNumber code := by
  refine ⟨_, rfl, ?_, ?_⟩
  · simp [LFields.RawSetString, LFields.RawSet, LFields.RawGetString, LFields.RawGet,
      _kvdbExitReason, _kvdbExitPayload]
  · simp [LFields.RawSetString, LFields.RawSet, LFields.RawGetString, LFields.RawGet,
      _kvdbExitReason, _kvdbExitPayload]

/-- What `DoScript` returns and writes when the run ends through `exit(code)` is what the end
of `DoScript` returns and writes for the exit code `code`. -/
theorem DoScript_exit_response (E : Engine) (interp : Bytes → Script) (b : Bucket) (db : DB)
    (w : Response) (r : Request) (name : Bytes) (code : Int)
    (hload : (b.loadScript E db name).1.2 = .nil)
    (hrun : (scriptRun E interp b db r name).1
      = .apiError (safeExit "exit" (some (.LNumber code)))) :
    (b.DoScript E interp db w r name).1
      = (finishScript (scriptRun E interp b db r name).2.mod
          (scriptRun E interp b db r name).2.buf code w).1 ∧
    (b.DoScript E interp db w r name).2.1
      = (finishScript (scriptRun E interp b db r name).2.mod
          (scriptRun E interp b db r name).2.buf code w).2 := by
  obtain ⟨tb, htb, h1, h2⟩ := safeExit_exit_fields code
  rw [htb] at hrun
  unfold scriptRun at hrun ⊢
  unfold Bucket.DoScript
  dsimp only
  rw [hload]
  dsimp only
  generalize (interp (b.loadScript E db name).1.1).run E b
    { txn := (Store.NewTransaction (b.loadScript E db name).2 true).1, buf := [],
      mod := mkLua r } = rr at hrun ⊢
  rcases rr with ⟨res, env⟩
  dsimp only at hrun
  subst hrun
  dsimp only
  rw [h1]
  have hne : ¬ ("exit" = "redirect") := by decide
  simp only [hne, if_false, if_true, h2]
  exact ⟨trivial, trivial⟩

theorem scriptRun_txn_id (E : Engine) (interp : Bytes → Script) (b : Bucket) (db : DB)
    (r : Request) (name : Bytes) :
    (scriptRun E interp b db r name).2.txn.id = (b.loadScript E db name).2.log.length := by
  unfold scriptRun
  rw [Script.run_txn_id]
  rfl

/-- C3. In `DoScript`, once the script is loaded, the transaction opened for the run is
committed if and only if the run completes (`DoString` returns `nil`): then the calls on the
store are `NewTransaction`, `Commit`, `Discard`, and when the commit succeeds the writes of the
run are the committed ones (and `DoScript` returns what writing the response gives: `nil`,
unless `w.WriteHeader` panics on the `status` of the script); for a run that ends any other
way (through `exit`, through `redirect`, or through any other fault) the calls are
`NewTransaction` and `Discard` only, and the committed entries are the ones before the call. -/
theorem DoScript_commit_iff_completes (E : Engine) (interp : Bytes → Script) (b : Bucket)
    (db : DB) (w : Response) (r : Request) (name : Bytes)
    (hload : (b.loadScript E db name).1.2 = .nil) :
    ((scriptRun E interp b db r name).1 = .nil →
      (b.DoScript E interp db w r name).2.2.log
        = .Discard (b.loadScript E db name).2.log.length
            :: .Commit (b.loadScript E db name).2.log.length
            :: .NewTransaction (b.loadScript E db name).2.log.length true
            :: (b.loadScript E db name).2.log ∧
      (E.commitFault (scriptRun E interp b db r name).2.txn = none →
        (b.DoScript E interp db w r name).1
          = (finishScript (scriptRun E interp b db r name).2.mod
              (scriptRun E interp b db r name).2.buf 0 w).1 ∧
        (b.DoScript E interp db w r name).2.2.data
          = commitWrites db.data (scriptRun E interp b db r name).2.txn.pending)) ∧
    ((scriptRun E interp b db r name).1 ≠ .nil →
      (b.DoScript E interp db w r name).2.2.log
        = .Discard (b.loadScript E db name).2.log.length
            :: .NewTransaction (b.loadScript E db name).2.log.length true
            :: (b.loadScript E db name).2.log ∧
      (b.DoScript E interp db w r name).2.2.data = db.data) ∧
    (∀ (code : Int) (env : LuaEnv), ((Script.exit code).run E b env).1 ≠ .nil) ∧
    (∀ (url : String) (code : Option Int) (env : LuaEnv),
      ((Script.redirect url code).run E b env).1 ≠ .nil) ∧
    (∀ (obj : LValue) (env : LuaEnv), ((Script.error obj).run E b env).1 ≠ .nil) ∧
    (∀ (msg : String) (env : LuaEnv), ((Script.abort msg).run E b env).1 ≠ .nil) := by
  have hid := scriptRun_txn_id E interp b db r name
  have hdata := loadScript_data E b db name
  refine ⟨fun hrun => ?_, fun hrun => ?_, ?_, ?_, ?_, ?_⟩
  · obtain ⟨h1, h2⟩ := DoScript_done_store E interp b db w r name hload hrun
    refine ⟨?_, fun hc => ⟨(h2 hc).1, ?_⟩⟩
    · rw [h1]
      unfold Store.Discard Store.Commit
      cases E.commitFault (scriptRun E interp b db r name).2.txn <;>
        simp [hid, Store.NewTransaction]
    · rw [h1]
      simp [Store.Discard, Store.Commit, hc, Store.NewTransaction, hdata]
  · have h1 := DoScript_fault_store E interp b db w r name hload hrun
    rw [h1]
    simp [Store.Discard, Store.NewTransaction, hid, hdata]
  · intro code env h
    simp [Script.run] at h
  · intro url code env h
    simp [Script.run] at h
  · intro obj env h
    simp [Script.run] at h
  · intro msg env h
    simp [Script.run] at h

theorem DoScript_commit_iff_completes_witness :
    ((sampleBucket.loadScript sampleEngine scriptsDB (ascii "s1")).1.2 = .nil ∧
      (scriptRun sampleEngine sampleInterp sampleBucket scriptsDB getRequest (ascii "s1")).1
        ≠ .nil ∧
      Data.get (sampleBucket.DoScript sampleEngine sampleInterp scriptsDB [] getRequest
        (ascii "s1")).2.2.data (sampleBucket.udataKey (ascii "a") _markKeyValue) = none ∧
      (sampleBucket.DoScript sampleEngine sampleInterp scriptsDB [] getRequest
        (ascii "s1")).2.1 = [.WriteHeader 204, .Write []]) ∧
    ((sampleBucket.loadScript sampleEngine scriptsDB (ascii "s2")).1.2 = .nil ∧
      (scriptRun sampleEngine sampleInterp sampleBucket scriptsDB getRequest (ascii "s2")).1
        = .nil ∧
      Data.get (sampleBucket.DoScript sampleEngine sampleInterp scriptsDB [] getRequest
        (ascii "s2")).2.2.data (sampleBucket.udataKey (ascii "a") _markKeyValue)
        = some { Value := ascii "1", ExpiresAt := 0 } ∧
      (sampleBucket.DoScript sampleEngine sampleInterp scriptsDB [] getRequest
        (ascii "s2")).2.1 = [.WriteHeader 200, .Write []]) ∧
    ((sampleBucket.DoScript sampleEngine sampleInterp scriptsDB [] getRequest
        (ascii "s3")).2.1 = [.Redirect "/x" 301] ∧
      (sampleBucket.DoScript sampleEngine sampleInterp scriptsDB [] getRequest
        (ascii "s3")).2.2.data = scriptsDB.data) :=
  have h1 := (DoScript_commit_iff_completes sampleEngine sampleInterp sampleBucket scriptsDB []
    getRequest (ascii "s1") (by decide)).2.1 (by decide)
  have h2 := ((DoScript_commit_iff_completes sampleEngine sampleInterp sampleBucket scriptsDB []
    getRequest (ascii "s2") (by decide)).1 (by decide)).2 rfl
  have h3 := (DoScript_commit_iff_completes sampleEngine sampleInterp sampleBucket scriptsDB []
    getRequest (ascii "s3") (by decide)).2.1 (by decide)
  ⟨⟨by decide, by decide, by rw [h1.2]; decide, by decide⟩,
   ⟨by decide, by decide, by rw [h2.2]; decide, by decide⟩,
   ⟨by decide, h3.2⟩⟩

/-- C9 (amended). When the run of a script ends through `exit(code)` with a code from 100 to
999 (the status codes `net/http` accepts), `DoScript` returns `nil` and the only status it
writes to the response is `code`, whatever the `status` field of the module holds: on a
response without a status yet, `code` is the status of the response. When `code ≤ 0` the
status written is the one of the `status` field, for a `status` that is a number from 100 to
999. -/
theorem DoScript_exit_status (E : Engine) (interp : Bytes → Script) (b : Bucket) (db : DB)
    (w : Response) (r : Request) (name : Bytes) (code : Int)
    (hload : (b.loadScript E db name).1.2 = .nil)
    (hrun : (scriptRun E interp b db r name).1
      = .apiError (safeExit "exit" (some (.LNumber code)))) :
    (100 ≤ code → code ≤ 999 →
      (b.DoScript E interp db w r name).1 = .nil ∧
      (b.DoScript E interp db w r name).2.1
        = w ++ scriptHeaders (scriptRun E interp b db r name).2.mod
            ++ [.WriteHeader code, .Write (scriptRun E interp b db r name).2.buf] ∧
      (responseStatus w = none →
        responseStatus (b.DoScript E interp db w r name).2.1 = some code)) ∧
    (code ≤ 0 → ∀ s : Int,
      (scriptRun E interp b db r name).2.mod.RawGetString "status" = .LNumber s →
      100 ≤ s → s ≤ 999 →
      (b.DoScript E interp db w r name).1 = .nil ∧
      (b.DoScript E interp db w r name).2.1
        = w ++ scriptHeaders (scriptRun E interp b db r name).2.mod
            ++ [.WriteHeader s, .Write (scriptRun E interp b db r name).2.buf]) ∧
    (∀ c ∈ scriptHeaders (scriptRun E interp b db r name).2.mod,
      ∃ k v, c = RespCall.SetHeader k v) := by
  obtain ⟨h1, h2⟩ := DoScript_exit_response E interp b db w r name code hload hrun
  refine ⟨fun hlo hhi => ?_, fun hc s hs hlo hhi => ?_, ?_⟩
  · have hf := finishScript_exit_valid (scriptRun E interp b db r name).2.mod
      (scriptRun E interp b db r name).2.buf code w hlo hhi
    rw [hf] at h1 h2
    refine ⟨h1, h2, fun hw => ?_⟩
    rw [h2, List.append_assoc, responseStatus_append, hw, responseStatus_append,
      responseStatus_scriptHeaders]
    rfl
  · have hf := finishScript_status_valid (scriptRun E interp b db r name).2.mod
      (scriptRun E interp b db r name).2.buf code s w hc hs hlo hhi
    rw [hf] at h1 h2
    exact ⟨h1, h2⟩
  · intro c hc
    unfold scriptHeaders at hc
    split at hc
    · unfold headerCalls at hc
      simp only [List.mem_filterMap] at hc
      obtain ⟨kv, _, hkv⟩ := hc
      split at hkv
      · simp only [Option.some.injEq] at hkv
        exact ⟨_, _, hkv.symm⟩
      · simp at hkv
    · simp at hc

theorem DoScript_exit_status_witness :
    (sampleBucket.loadScript sampleEngine scriptsDB (ascii "s1")).1.2 = .nil ∧
    (scriptRun sampleEngine sampleInterp sampleBucket scriptsDB getRequest (ascii "s1")).1
      = .apiError (safeExit "exit" (some (.LNumber 204))) ∧
    (100 : Int) ≤ 204 ∧ (204 : Int) ≤ 999 ∧
    (sampleBucket.DoScript sampleEngine sampleInterp scriptsDB [] getRequest (ascii "s1")).2.1
      = [.WriteHeader 204, .Write []] :=
  ⟨by decide, by decide, by decide, by decide,
   ((DoScript_exit_status sampleEngine sampleInterp sampleBucket scriptsDB [] getRequest
      (ascii "s1") 204 (by decide) (by decide)).1 (by decide) (by decide)).2.1.trans
      (by decide)⟩

/-- C9, as stated, fails for the code 0 and for the code 42: the script
`kvdb.status = 404 kvdb.exit(0)` ends through `exit(0)`, and the status `DoScript` writes is
404, the `status` field, not 0; the script `kvdb.exit(42)` ends through `exit(42)`, and
`DoScript` panics in `w.WriteHeader(42)` without a status written. -/
theorem DoScript_exit_zero_counterexample :
    (scriptRun sampleEngine sampleInterp sampleBucket scriptsDB getRequest (ascii "s4")).1
      = .apiError (safeExit "exit" (some (.LNumber 0))) ∧
    (sampleBucket.DoScript sampleEngine sampleInterp scriptsDB [] getRequest (ascii "s4")).2.1
      = [.WriteHeader 404, .Write []] ∧
    RespCall.WriteHeader 0 ∉
      (sampleBucket.DoScript sampleEngine sampleInterp scriptsDB [] getRequest (ascii "s4")).2.1 ∧
    (scriptRun sampleEngine sampleInterp sampleBucket scriptsDB getRequest (ascii "s5")).1
      = .apiError (safeExit "exit" (some (.LNumber 42))) ∧
    (sampleBucket.DoScript sampleEngine sampleInterp scriptsDB [] getRequest (ascii "s5")).1
      = .panic "invalid WriteHeader code" ∧
    (sampleBucket.DoScript sampleEngine sampleInterp scriptsDB [] getRequest (ascii "s5")).2.1
      = [] := by
  refine ⟨by decide, by decide, by decide, by decide, by decide, by decide⟩

/-! ## The write handler drops the error of `Bucket.Set` (C11) -/

/-- Whatever `Bucket.Set` returns, an error included, `setKeyValue` returns the status 0 and no
error once the body is read, and writes nothing to the response. -/
theorem setKeyValue_status_zero (E : Engine) (b : Bucket) (db : DB) (w : Response) (r : Request)
    (val : Bytes) (hb : r.Body = .ok val)
    (hp : ∀ msg, (b.Set E db r.key val (seconds r.ttl)).1 ≠ .panic msg) :
    (setKeyValue E b db w r).1 = .ret 0 none ∧ (setKeyValue E b db w r).2.1 = w := by
  unfold setKeyValue
  rw [hb]
  dsimp only
  cases hs : (b.Set E db r.key val (seconds r.ttl)).1 with
  | nil => exact ⟨rfl, rfl⟩
  | err e => exact ⟨rfl, rfl⟩
  | panic msg => exact absurd hs (hp msg)

/-- C11, on a provisioned bucket with an engine on which the write fails: `Bucket.Set` returns
an error, yet `setKeyValue` returns the status 0 and no error, so that `handle` sends no error
response (nothing is written or logged) although the value was not stored (the sibling
`deleteKeyValue` returns 500 when its store call fails). -/
theorem setKeyValue_swallows_error :
    (LoadBucket failingSetEngine sampleUnmarshalOpts provisionedDB sampleNameA).1
      = .ok sampleBucket ∧
    (sampleBucket.Set failingSetEngine provisionedDB (ascii "k") (ascii "v") 0).1
      = .err (.engine (.other "no space left on device")) ∧
    (withBucket failingSetEngine sampleUnmarshalOpts (setKeyValue failingSetEngine)
      provisionedDB [] setRequest).1 = .ret 0 none ∧
    (handle (withBucket failingSetEngine sampleUnmarshalOpts (setKeyValue failingSetEngine))
      provisionedDB [] setRequest).w = [] ∧
    (handle (withBucket failingSetEngine sampleUnmarshalOpts (setKeyValue failingSetEngine))
      provisionedDB [] setRequest).logged = false ∧
    (handle (withBucket failingSetEngine sampleUnmarshalOpts (setKeyValue failingSetEngine))
      provisionedDB [] setRequest).db.data = provisionedDB.data ∧
    (handle (withBucket { failingSetEngine with
        deleteFault := fun _ _ => some (.other "no space left on device") }
      sampleUnmarshalOpts (deleteKeyValue { failingSetEngine with
        deleteFault := fun _ _ => some (.other "no space left on device") }))
      provisionedDB [] setRequest).w
      = [.Error (ascii "500 Internal Server Error") 500] := by
  refine ⟨by decide, by decide, by decide, by decide, by decide, by decide, by decide⟩

/-! ## The transaction wrapper `WithTxn` (C14) -/

/-- C14. For every store, update flag and unit of work `fn` (working on the transaction it is
given), `WithTxn` opens one transaction; when `fn` returns `nil` it calls `Commit` and returns
the result of `Commit`, and when `fn` fails (with an error or a panic) it does not call
`Commit` and returns what `fn` returned; on both paths it calls `Discard` on that transaction
once, last; what `fn` assigned to its captured variables is handed on. -/
theorem WithTxn_protocol {β : Type} (E : Engine) (db : DB) (update : Bool)
    (fn : Txn → (Status × β) × Txn)
    (hid : (fn (Store.NewTransaction db update).1).2.id = db.log.length) :
    ((fn (Store.NewTransaction db update).1).1.1 = .nil →
      (WithTxn E db update fn).1.1
        = (Store.Commit E (Store.NewTransaction db update).2
            (fn (Store.NewTransaction db update).1).2).1 ∧
      (WithTxn E db update fn).2.log
        = .Discard db.log.length :: .Commit db.log.length
            :: .NewTransaction db.log.length update :: db.log) ∧
    ((fn (Store.NewTransaction db update).1).1.1 ≠ .nil →
      (WithTxn E db update fn).1.1 = (fn (Store.NewTransaction db update).1).1.1 ∧
      (WithTxn E db update fn).2.log
        = .Discard db.log.length :: .NewTransaction db.log.length update :: db.log) ∧
    (WithTxn E db update fn).1.2 = (fn (Store.NewTransaction db update).1).1.2 := by
  unfold WithTxn
  dsimp only
  generalize hr : fn (Store.NewTransaction db update).1 = r at hid ⊢
  rcases r with ⟨⟨s, out⟩, t⟩
  dsimp only at hid
  cases s with
  | nil =>
    refine ⟨fun _ => ⟨rfl, ?_⟩, fun h => absurd rfl h, rfl⟩
    dsimp only
    unfold Store.Discard Store.Commit
    cases E.commitFault t <;> simp [hid, Store.NewTransaction]
  | err e =>
    refine ⟨fun h => ?_, fun _ => ⟨rfl, ?_⟩, rfl⟩
    · simp at h
    · simp [Store.Discard, hid, Store.NewTransaction]
  | panic m =>
    refine ⟨fun h => ?_, fun _ => ⟨rfl, ?_⟩, rfl⟩
    · simp at h
    · simp [Store.Discard, hid, Store.NewTransaction]

theorem WithTxn_protocol_witness :
    ((fun txn => (((Store.Set tinyTxnEngine txn (ascii "k") (ascii "v") none).1, ()),
        (Store.Set tinyTxnEngine txn (ascii "k") (ascii "v") none).2))
      (Store.NewTransaction emptyDB true).1).2.id = emptyDB.log.length ∧
    (WithTxn tinyTxnEngine emptyDB true
      (fun txn => (((Store.Set tinyTxnEngine txn (ascii "k") (ascii "v") none).1, ()),
        (Store.Set tinyTxnEngine txn (ascii "k") (ascii "v") none).2))).2.log
      = [.Discard 0, .Commit 0, .NewTransaction 0 true] :=
  ⟨by decide,
   ((WithTxn_protocol tinyTxnEngine emptyDB true
      (fun txn => (((Store.Set tinyTxnEngine txn (ascii "k") (ascii "v") none).1, ()),
        (Store.Set tinyTxnEngine txn (ascii "k") (ascii "v") none).2))
      (by decide)).1 (by decide)).2⟩

/-! ## The interpreter pool (C15) -/

theorem take_append_last (l : List Nat) (h : l ≠ []) :
    l.take (l.length - 1) ++ [l.getD (l.length - 1) 0] = l := by
  induction l with
  | nil => exact absurd rfl h
  | cons a t ih =>
    cases t with
    | nil => rfl
    | cons b t =>
      have := ih (by simp)
      simp only [List.length_cons, Nat.add_sub_cancel] at this ⊢
      rw [List.take_succ_cons, List.getD_cons_succ, List.cons_append, this]

/-- What a `Get` that goes through returns: it takes a slot, and either the free list is empty
and the instance is a new one, or the instance is the last of the free list. -/
theorem lstatePool.Get_some (pl : lstatePool) (x : Nat) (pl1 : lstatePool)
    (h : pl.Get = some (x, pl1)) :
    pl.limit < pl.size ∧ pl1.size = pl.size ∧ pl1.limit = pl.limit + 1 ∧
    ((pl.pool = [] ∧ x = pl.made ∧ pl1.pool = [] ∧ pl1.made = pl.made + 1) ∨
     (pl.pool = pl1.pool ++ [x] ∧ pl1.made = pl.made)) := by
  unfold lstatePool.Get at h
  by_cases hl : pl.limit < pl.size
  · rw [if_pos hl] at h
    dsimp only at h
    by_cases hn : pl.pool.length = 0
    · rw [if_pos hn] at h
      simp only [Option.some.injEq, Prod.mk.injEq] at h
      obtain ⟨hx, hp⟩ := h
      subst hp
      exact ⟨hl, rfl, rfl, Or.inl ⟨List.length_eq_zero.mp hn, hx.symm, List.length_eq_zero.mp hn,
        rfl⟩⟩
    · rw [if_neg hn] at h
      simp only [Option.some.injEq, Prod.mk.injEq] at h
      obtain ⟨hx, hp⟩ := h
      subst hp
      subst hx
      refine ⟨hl, rfl, rfl, Or.inr ⟨?_, rfl⟩⟩
      exact (take_append_last pl.pool (fun h0 => hn (by simp [h0]))).symm
  · rw [if_neg hl] at h
    cases h

theorem lstatePool.Put_some (pl : lstatePool) (x : Nat) (pl1 : lstatePool)
    (h : pl.Put x = some pl1) :
    0 < pl.limit ∧ pl1.size = pl.size ∧ pl1.limit = pl.limit - 1 ∧
    pl1.pool = pl.pool ++ [x] ∧ pl1.made = pl.made := by
  unfold lstatePool.Put at h
  dsimp only at h
  by_cases hl : pl.limit > 0
  · rw [if_pos hl] at h
    simp only [Option.some.injEq] at h
    subst h
    exact ⟨hl, rfl, rfl, rfl, rfl⟩
  · rw [if_neg hl] at h
    cases h

/-- The empty pool satisfies the invariant. -/
theorem PoolInv_init (C : Nat) : PoolInv C { pl := newLStatePool C, out := [] } := by
  refine ⟨rfl, rfl, ?_, ?_, ?_⟩
  · simp [newLStatePool]
  · intro x hx
    simp [newLStatePool] at hx
  · simp [newLStatePool]

/-- Every step of the pool keeps the invariant. -/
theorem PoolInv_step (C : Nat) (s t : PoolState) (hs : PoolInv C s) (ht : PoolStep s t) :
    PoolInv C t := by
  obtain ⟨hsize, hlim, hnd, hmade, hlen⟩ := hs
  cases ht with
  | get x pl1 h =>
    obtain ⟨hl, h1, h2, h3⟩ := lstatePool.Get_some s.pl x pl1 h
    rcases h3 with ⟨hp, hx, hp1, hm⟩ | ⟨hp, hm⟩
    · rw [hp] at hnd hmade hlen
      simp only [List.nil_append, List.length_nil, Nat.zero_add] at hnd hmade hlen
      refine ⟨h1.trans hsize, ?_, ?_, ?_, ?_⟩
      · simp [h2, hlim]
      · rw [hp1, List.nil_append, List.nodup_cons]
        refine ⟨fun hmem => ?_, hnd⟩
        have := hmade x hmem
        omega
      · intro y hy
        dsimp only at hy ⊢
        rw [hp1, List.nil_append, List.mem_cons] at hy
        rcases hy with hy | hy
        · omega
        · have := hmade y hy
          omega
      · dsimp only
        simp only [hp1, List.length_nil, List.length_cons]
        omega
    · rw [hp, List.append_assoc] at hnd hmade
      rw [hp] at hlen
      simp only [List.singleton_append] at hnd hmade
      refine ⟨h1.trans hsize, ?_, hnd, ?_, ?_⟩
      · simp [h2, hlim]
      · intro y hy
        dsimp only at hy ⊢
        rw [hm]
        exact hmade y hy
      · dsimp only
        simp only [List.length_append, List.length_singleton, List.length_cons] at hlen ⊢
        omega
  | put x pl1 hx h =>
    obtain ⟨hl, h1, h2, h3, h4⟩ := lstatePool.Put_some s.pl x pl1 h
    have hperm : List.Perm (pl1.pool ++ s.out.erase x) (s.pl.pool ++ s.out) := by
      rw [h3, List.append_assoc]
      exact List.Perm.append_left _ (List.perm_cons_erase hx).symm
    have hle := List.length_erase_of_mem hx
    refine ⟨h1.trans hsize, ?_, ?_, ?_, ?_⟩
    · simp only [h2, hlim, hle]
    · exact hperm.nodup_iff.mpr hnd
    · intro y hy
      dsimp only at hy ⊢
      rw [h4]
      exact hmade y (hperm.mem_iff.mp hy)
    · have h5 := hperm.length_eq
      simp only [List.length_append] at h5
      dsimp only
      omega

/-- Every reachable state of the pool satisfies the invariant. -/
theorem PoolInv_reachable (C : Nat) (s : PoolState) (h : PoolReachable C s) : PoolInv C s := by
  induction h with
  | init => exact PoolInv_init C
  | step s t _ ht ih => exact PoolInv_step C s t ih ht

/-- C15. In every state the pool of capacity `C` reaches from the empty pool by steps `Get` and
`Put`: at most `C` instances are handed out; the free list has at most `C` entries, has no
duplicates and holds no handed-out instance; `Get` goes through exactly while fewer than `C`
instances are handed out; and the instance `Get` returns is not one that is handed out. -/
theorem pool_invariant (C : Nat) (s : PoolState) (h : PoolReachable C s) :
    s.out.length ≤ C ∧ s.pl.pool.length ≤ C ∧ s.pl.pool.Nodup ∧
    (∀ x ∈ s.pl.pool, x ∉ s.out) ∧
    (s.pl.Get ≠ none ↔ s.out.length < C) ∧
    (∀ (x : Nat) (pl1 : lstatePool), s.pl.Get = some (x, pl1) → x ∉ s.out) := by
  obtain ⟨hsize, hlim, hnd, hmade, hlen⟩ := PoolInv_reachable C s h
  have hdis := List.nodup_append.mp hnd
  refine ⟨by omega, by omega, hdis.1, fun x hx hxo => hdis.2.2 hx hxo, ?_, ?_⟩
  · unfold lstatePool.Get
    rw [hsize, hlim]
    by_cases hl : s.out.length < C
    · simp only [hl, if_true, iff_true]
      split_ifs <;> simp
    · simp [hl]
  · intro x pl1 hg hxo
    obtain ⟨_, _, _, h3⟩ := lstatePool.Get_some s.pl x pl1 hg
    rcases h3 with ⟨_, hx, _, _⟩ | ⟨hp, _⟩
    · have := hmade x (List.mem_append_right _ hxo)
      omega
    · exact hdis.2.2 (by rw [hp]; simp) hxo

theorem pool_invariant_witness :
    PoolReachable 2 poolAfterPut ∧ poolAfterPut.out.length ≤ 2 ∧
    poolAfterPut.pl.Get = some (0, { size := 2, limit := 2, pool := [], made := 2 }) ∧
    (0 : Nat) ∉ poolAfterPut.out :=
  have h0 : PoolReachable 2 { pl := newLStatePool 2, out := [] } := PoolReachable.init
  have h1 : PoolReachable 2 poolAfterOneGet :=
    PoolReachable.step _ _ h0 (PoolStep.get _ 0 _ rfl)
  have h2 : PoolReachable 2 poolAfterTwoGets :=
    PoolReachable.step _ _ h1 (PoolStep.get _ 1 _ rfl)
  have h3 : PoolReachable 2 poolAfterPut :=
    PoolReachable.step _ _ h2
      (PoolStep.put poolAfterTwoGets 0 { size := 2, limit := 1, pool := [0], made := 2 }
        (by decide) rfl)
  ⟨h3, (pool_invariant 2 poolAfterPut h3).1, by decide,
   (pool_invariant 2 poolAfterPut h3).2.2.2.2.2 0
     { size := 2, limit := 2, pool := [], made := 2 } (by decide)⟩

/-! ## Request parameters with several values (C12) -/

theorem RawGet_RawSet_string (k k1 : LKey) (s : String) : ∀ t : LFields,
    (t.RawSet k (.LString s)).RawGet k1 = if k = k1 then .LString s else t.RawGet k1
  | .nil => by
    simp only [LFields.RawSet, LFields.RawGet]
  | .cons k0 v0 rest => by
    have ih := RawGet_RawSet_string k k1 s rest
    simp only [LFields.RawSet]
    by_cases h0 : k0 = k
    · subst h0
      simp only [if_true, LFields.RawGet]
      by_cases h1 : k0 = k1 <;> simp [h1]
    · simp only [h0, if_false, LFields.RawGet, ih]
      by_cases h1 : k0 = k1
      · subst h1
        have : ¬ k = k0 := fun h => h0 h.symm
        simp [this]
      · simp [h1]

/-- The table filled from the values `vs` with the Go indices `k`, `k + 1`, ... holds the
values at exactly these keys. -/
theorem enumFrom_foldl_RawGet (vs : List String) (k : Nat) (t : LFields) (i : Int) :
    ((vs.enumFrom k).foldl
        (fun arr is => LFields.RawSetInt arr (is.1 : Int) (.LString is.2)) t).RawGet (.int i)
      = if (k : Int) ≤ i ∧ i < (k : Int) + vs.length
        then .LString (vs.getD (i - k).toNat "") else t.RawGet (.int i) := by
  induction vs generalizing k t with
  | nil =>
    have : ¬ ((k : Int) ≤ i ∧ i < (k : Int) + ([] : List String).length) := by
      simp only [List.length_nil, Nat.cast_zero]
      omega
    simp only [List.enumFrom_nil, List.foldl_nil, this, if_false]
  | cons v vs ih =>
    rw [List.enumFrom_cons, List.foldl_cons, ih]
    simp only [LFields.RawSetInt, RawGet_RawSet_string, List.length_cons, LKey.int.injEq]
    by_cases h1 : ((k + 1 : Nat) : Int) ≤ i ∧ i < ((k + 1 : Nat) : Int) + vs.length
    · have h2 : (k : Int) ≤ i ∧ i < (k : Int) + ((vs.length + 1 : Nat) : Int) := by omega
      have h3 : (i - (k : Int)).toNat = (i - ((k + 1 : Nat) : Int)).toNat + 1 := by omega
      rw [if_pos h1, if_pos h2, h3, List.getD_cons_succ]
    · rw [if_neg h1]
      by_cases h4 : (k : Int) = i
      · have h2 : (k : Int) ≤ i ∧ i < (k : Int) + ((vs.length + 1 : Nat) : Int) := by omega
        have h3 : (i - (k : Int)).toNat = 0 := by omega
        rw [if_pos h4, if_pos h2, h3, List.getD_cons_zero]
      · have h2 : ¬ ((k : Int) ≤ i ∧ i < (k : Int) + ((vs.length + 1 : Nat) : Int)) := by omega
        rw [if_neg h4, if_neg h2]

/-- The table `urlValuesToLua` builds for `n` values holds them at the keys 0 to `n - 1`: the
first value is at the key 0, the position `n` holds nothing. -/
theorem valuesArray_RawGet (vs : List String) (i : Int) :
    (valuesArray vs).RawGet (.int i)
      = if 0 ≤ i ∧ i < vs.length then .LString (vs.getD i.toNat "") else .LNil := by
  have h := enumFrom_foldl_RawGet vs 0 LFields.nil i
  simp only [Nat.cast_zero, Int.sub_zero, Int.zero_add, LFields.RawGet] at h
  exact h

/-- C12, at the parameters `a=x&a=y`: the table under `a` holds `x` at the key 0 and `y` at the
position 1; the position 2 holds nothing and the length of the table is 1, not 2. A parameter
with one value does become a string. -/
theorem urlValuesToLua_two_values :
    (urlValuesToLua LFields.nil [("a", ["x", "y"])]).RawGetString "a"
      = .LTable (valuesArray ["x", "y"]) ∧
    (valuesArray ["x", "y"]).RawGet (.int 0) = .LString "x" ∧
    (valuesArray ["x", "y"]).RawGet (.int 1) = .LString "y" ∧
    (valuesArray ["x", "y"]).RawGet (.int 2) = .LNil ∧
    (valuesArray ["x", "y"]).Len = 1 ∧
    (urlValuesToLua LFields.nil [("b", ["z"])]).RawGetString "b" = .LString "z" := by
  refine ⟨by decide, by decide, by decide, by decide, by decide, by decide⟩

/-! ## Bucket names that `LoadBucket` accepts (C13) -/

theorem StoreGet_view (E : Engine) (t : Txn) (key : Bytes) (hg : E.getFault t key = none) :
    Store.Get E t key = match t.view E key with
      | some v => .ok v
      | none => .error .ErrKeyNotFound := by
  unfold Store.Get
  rcases Txn.Get_view E t key hg with ⟨hv, hget⟩ | ⟨item, hget, hv⟩
  · rw [hv, hget]
    simp
  · rw [hv, hget]

/-- On an engine on which no store call fails, what `LoadBucket` returns for a name is decided
by the value stored under the options-record key of the name. -/
theorem LoadBucket_live (E : Engine) (hE : E.NoFaults)
    (unmarshalOpts : Bytes → Except String BucketOptions) (db : DB) (name : Bytes) :
    (LoadBucket E unmarshalOpts db name).1 =
      match Data.live E db.data (name ++ _markBucketOpts) with
      | none => .error (.store .ErrKeyNotFound)
      | some v =>
        match unmarshalOpts v with
        | .error msg => .error (.other msg)
        | .ok opts => .ok { opts := opts, name := name } := by
  have hview : (Store.NewTransaction db false).1.view E (name ++ _markBucketOpts)
      = Data.live E db.data (name ++ _markBucketOpts) := rfl
  unfold LoadBucket loadOpts WithTxn
  dsimp only
  rw [StoreGet_view E _ _ (hE.1 _ _), hview]
  cases Data.live E db.data (name ++ _markBucketOpts) with
  | none => rfl
  | some v =>
    simp only [Store.Commit, hE.2.2.2]
    cases unmarshalOpts v <;> rfl

/-- On an engine on which no store call fails, `Bucket.Set` writes the namespaced key and
nothing else. -/
theorem BucketSet_noFaults_data (E : Engine) (hE : E.NoFaults) (b : Bucket) (db : DB)
    (key val : Bytes) (ttl : Int) :
    ∃ e : Entry, (b.Set E db key val ttl).2.data
      = Data.put db.data (b.udataKey key _markKeyValue) e := by
  refine ⟨Entry.mk val (expiryOf E (effectiveTTL ttl b.opts.DefaultTTL)), ?_⟩
  unfold Bucket.Set WithTxn
  dsimp only
  rw [Store.Set_noFaults E hE b (Store.NewTransaction db true).1 rfl]
  simp [Store.Commit, hE.2.2.2, Store.Discard, Store.NewTransaction, commitWrites, Data.apply]

theorem Data.live_put_other (E : Engine) (d : Data) (k k1 : Bytes) (e : Entry) (h : k1 ≠ k) :
    Data.live E (Data.put d k1 e) k = Data.live E d k := by
  unfold Data.live
  rw [Data.get_put_other d k k1 e h]

/-- The key-value key of a bucket is not the options-record key of a name that is no longer
than the name of the bucket. -/
theorem udataKey_ne_opts_of_le (n1 n2 k : Bytes) (h : n2.length ≤ n1.length) :
    n1 ++ _markKeyValue ++ k ≠ n2 ++ _markBucketOpts := by
  intro heq
  have hlen := congrArg List.length heq
  rw [markKeyValue_bytes, markBucketOpts_bytes] at hlen
  simp only [List.length_append, List.length_cons, List.length_nil] at hlen
  by_cases hk : k = []
  · subst hk
    have hrev := congrArg List.reverse heq
    rw [markKeyValue_bytes, markBucketOpts_bytes] at hrev
    simp only [List.append_nil, List.reverse_append, List.reverse_cons, List.reverse_nil,
      List.nil_append, List.cons_append, List.cons.injEq] at hrev
    exact absurd hrev.1 (by decide)
  · have hkl : 0 < k.length := List.length_pos.mpr hk
    have hl : n1.length = n2.length := by omega
    rw [List.append_assoc] at heq
    exact kv_mark_ne_opts k (name_prefix_inj _ _ _ _ hl heq).2

/-- C13 (amended). For every bucket and every name `n2` that is no longer than the name of the
bucket (so for any two names of the provisioned length), no key-value key of the bucket is the
options-record key `n2 ++ ":opts"` that `LoadBucket` reads; hence, on an engine on which no
store call fails, no sequence of `Set` calls on the bucket changes what `LoadBucket` returns
for `n2`. -/
theorem LoadBucket_unchanged_by_Set (E : Engine) (hE : E.NoFaults)
    (unmarshalOpts : Bytes → Except String BucketOptions) (b1 : Bucket) (n2 : Bytes)
    (h : n2.length ≤ b1.name.length) :
    (∀ k : Bytes, b1.udataKey k _markKeyValue ≠ n2 ++ _markBucketOpts) ∧
    (∀ (calls : List (Bytes × Bytes × Int)) (db : DB),
      (LoadBucket E unmarshalOpts (setMany E b1 db calls) n2).1
        = (LoadBucket E unmarshalOpts db n2).1) := by
  have hkey : ∀ k : Bytes, b1.udataKey k _markKeyValue ≠ n2 ++ _markBucketOpts := by
    intro k
    simp only [Bucket.udataKey, List.nil_append]
    exact udataKey_ne_opts_of_le b1.name n2 k h
  refine ⟨hkey, ?_⟩
  intro calls
  induction calls with
  | nil => intro db; rfl
  | cons c calls ih =>
    intro db
    have hstep : setMany E b1 db (c :: calls)
        = setMany E b1 (b1.Set E db c.1 c.2.1 c.2.2).2 calls := rfl
    rw [hstep, ih, LoadBucket_live E hE, LoadBucket_live E hE]
    obtain ⟨e, he⟩ := BucketSet_noFaults_data E hE b1 db c.1 c.2.1 c.2.2
    rw [he, Data.live_put_other E db.data _ _ e (hkey c.1)]

theorem LoadBucket_unchanged_by_Set_witness :
    sampleEngine.NoFaults ∧ sampleNameB.length ≤ sampleBucket.name.length ∧
    (LoadBucket sampleEngine sampleUnmarshalOpts
      (setMany sampleEngine sampleBucket provisionedDB
        [(ascii "opts", ascii "\x7b\x7d", 0)]) sampleNameB).1
      = .error (.store .ErrKeyNotFound) :=
  ⟨sampleEngine_noFaults, by decide,
   ((LoadBucket_unchanged_by_Set sampleEngine sampleEngine_noFaults sampleUnmarshalOpts
      sampleBucket sampleNameB (by decide)).2 [(ascii "opts", ascii "\x7b\x7d", 0)]
      provisionedDB).trans (by decide)⟩

/-- C13, as stated, fails for a name longer than the name of the bucket: the key-value key of
the logical key `opts` in the bucket `n1` is the options-record key of the name `n1 ++ ":kv"`;
`LoadBucket` does not find that name in the store with the bucket `n1` provisioned, and finds
it after `Set("opts", "{}")` on the bucket `n1`. -/
theorem LoadBucket_forged_name_counterexample :
    sampleBucket.udataKey (ascii "opts") _markKeyValue
      = (sampleNameA ++ ascii ":kv") ++ _markBucketOpts ∧
    (LoadBucket sampleEngine sampleUnmarshalOpts provisionedDB (sampleNameA ++ ascii ":kv")).1
      = .error (.store .ErrKeyNotFound) ∧
    (sampleBucket.Set sampleEngine provisionedDB (ascii "opts") (ascii "\x7b\x7d") 0).1
      = .nil ∧
    (LoadBucket sampleEngine sampleUnmarshalOpts
      (sampleBucket.Set sampleEngine provisionedDB (ascii "opts") (ascii "\x7b\x7d") 0).2
      (sampleNameA ++ ascii ":kv")).1
      = .ok { opts := {}, name := sampleNameA ++ ascii ":kv" } := by
  refine ⟨by decide, by decide, by decide, by decide⟩

end Kvdb
